import Mathlib

/-!
Verification development for the Redis-NUMA memory-management core.

Each C module that the claims concern is shallowly embedded as executable
Lean definitions translated from the corresponding source file:

* `CompositeLru`   — src/numa_composite_lru.c (hot-key heat records, decay)
* `SlabAlloc`      — src/numa_pool.c (slab bitmap allocator, free path)
* `StrategySlots`  — src/numa_strategy_slots.c (slot scheduler)
* `ConfigStrategy` — src/numa_configurable_strategy.c and
                     src/numa_config_command.c (placement strategies)
* `Zmalloc`        — src/zmalloc.c (size-tracking allocator wrapper)
* `Migrate`        — src/numa_key_migrate.c (per-kind value migration)

Machine integers are modelled as `Nat`/`Int` with explicit `% 2 ^ w`
wherever overflow can occur.  Fallible C allocation is modelled by an
allocation oracle.  Pointer-keyed dictionaries are modelled as
association lists keyed by `Nat` identifiers.
-/

set_option maxHeartbeats 1000000

namespace RedisNuma

/-- Association-list lookup, modelling `dictFind`/`dictFetchValue` on a
pointer-keyed Redis dict (keys compared by identity). -/
def alookup {α : Type} : List (Nat × α) → Nat → Option α
  | [], _ => none
  | (k, v) :: rest, key => if k = key then some v else alookup rest key

/-- Association-list in-place update of the value stored under `key`
(no-op when the key is absent), modelling a write through `dictGetVal`. -/
def aupdate {α : Type} (f : α → α) : List (Nat × α) → Nat → List (Nat × α)
  | [], _ => []
  | (k, v) :: rest, key =>
    if k = key then (k, f v) :: rest else (k, v) :: aupdate f rest key

namespace CompositeLru

/-- `COMPOSITE_LRU_HOTNESS_MAX` from numa_composite_lru.h. -/
def HOTNESS_MAX : Nat := 7

/-- `COMPOSITE_LRU_HOTNESS_MIN` from numa_composite_lru.h. -/
def HOTNESS_MIN : Nat := 0

/-- `composite_lru_heat_info_t`: one key's heat record.  `hotness` and
`stability_counter` are `uint8_t` fields (the decay path increments the
stability counter modulo `2 ^ 8`), `last_access` is the low 16 bits of the
LRU clock, node ids are C `int`s. -/
structure HeatInfo where
  hotness : Nat
  stability_counter : Nat
  last_access : Nat
  access_count : Nat
  current_node : Int
  preferred_node : Int
deriving DecidableEq, Repr

/-- `pending_migration_t`: an entry of the pending-migration queue. -/
structure PendingMigration where
  key : Nat
  target_node : Int
  enqueue_time : Nat
  priority : Nat
deriving DecidableEq, Repr

/-- `composite_lru_data_t`: the strategy's private state (heat map,
pending-migration queue, configuration, counters). -/
structure LruState where
  decay_threshold : Nat
  stability_count : Nat
  migrate_hotness_threshold : Nat
  key_heat_map : List (Nat × HeatInfo)
  pending_migrations : List PendingMigration
  heat_updates : Nat
  decay_operations : Nat
deriving DecidableEq, Repr

/-- `calculate_time_delta` from numa_composite_lru.c: 16-bit wrap-aware
difference of two LRU clock values. -/
def calculate_time_delta (current last : Nat) : Nat :=
  if last ≤ current then current - last else (0xFFFF - last) + current + 1

/-- `composite_lru_record_access` from numa_composite_lru.c, for one key.
`current_node` is the calling thread's NUMA node, `current_time` the LRU
clock.  On a remote access the code only stores the preferred node (and,
above the migration threshold, emits a log line); it does not touch
`pending_migrations`. -/
def composite_lru_record_access (st : LruState) (key : Nat) (current_node : Int)
    (current_time : Nat) : LruState :=
  match alookup st.key_heat_map key with
  | none =>
    let info : HeatInfo :=
      { hotness := 1, stability_counter := 0, last_access := current_time,
        access_count := 1, current_node := current_node, preferred_node := -1 }
    { st with key_heat_map := (key, info) :: st.key_heat_map,
              heat_updates := st.heat_updates + 1 }
  | some info =>
    let info1 : HeatInfo :=
      { info with access_count := info.access_count + 1, last_access := current_time }
    let info2 : HeatInfo :=
      if info1.current_node = current_node then
        { info1 with
          hotness := if info1.hotness < HOTNESS_MAX then info1.hotness + 1 else info1.hotness,
          stability_counter := 0 }
      else
        { info1 with preferred_node := current_node }
    { st with key_heat_map := aupdate (fun _ => info2) st.key_heat_map key,
              heat_updates := st.heat_updates + 1 }

/-- The body of `composite_lru_decay_heat`'s iteration for one record:
given the decay threshold already converted to LRU ticks
(`decay_threshold / 1000000`) and the stability-count threshold, returns
the updated record and whether a hotness decrement (a counted decay
operation) happened. -/
def composite_lru_decay_one (decay_threshold_lru stability_count current_time : Nat)
    (info : HeatInfo) : HeatInfo × Bool :=
  let time_diff := calculate_time_delta current_time info.last_access
  if decay_threshold_lru < time_diff then
    let sc := (info.stability_counter + 1) % 256
    if stability_count < sc then
      if HOTNESS_MIN < info.hotness then
        ({ info with hotness := info.hotness - 1, stability_counter := 0 }, true)
      else
        ({ info with stability_counter := 0 }, false)
    else
      ({ info with stability_counter := sc }, false)
  else
    ({ info with stability_counter := 0 }, false)

/-- `composite_lru_decay_heat` from numa_composite_lru.c: one decay pass
over the whole heat map at clock `current_time`. -/
def composite_lru_decay_heat (st : LruState) (current_time : Nat) : LruState :=
  let thr := st.decay_threshold / 1000000
  let processed := st.key_heat_map.map fun kv =>
    (kv.1, composite_lru_decay_one thr st.stability_count current_time kv.2)
  { st with
    key_heat_map := processed.map fun kv => (kv.1, (kv.2).1)
    decay_operations := st.decay_operations + (processed.filter fun kv => (kv.2).2).length }

end CompositeLru

namespace SlabAlloc

/-- `SLAB_SIZE` from numa_pool.h (4 KiB page-aligned slab). -/
def SLAB_SIZE : Nat := 4096

/-- `SLAB_HEADER_MAGIC` from numa_pool.c (the ASCII bytes of SLAB). -/
def SLAB_HEADER_MAGIC : Nat := 0x534C4142

/-- `SLAB_HEADER_SIZE` from numa_pool.c: sizeof the slab header
(`uint32_t magic` + `uint32_t class_idx` + two 64-bit pointers). -/
def SLAB_HEADER_SIZE : Nat := 24

/-- The per-slab allocation state of `numa_slab_t` from numa_pool.c.  The
128-bit occupancy bitmap is modelled as its sequence of valid bits: a list
of `objects_per_slab` booleans (bits beyond `objects_per_slab` are never
set by the code).  `free_count` is the `uint16_t` free-object counter;
over the reachable states below it stays within `0 .. objects_per_slab`,
so plain `Nat` arithmetic agrees with the 16-bit counter. -/
structure Slab where
  bitmap : List Bool
  free_count : Nat
  objects_per_slab : Nat
deriving DecidableEq, Repr

/-- `bitmap_find_first_free` from numa_pool.c: index of the first zero bit,
or `none` when every valid bit is set. -/
def bitmap_find_first_free : List Bool → Option Nat
  | [] => none
  | b :: rest => if b then (bitmap_find_first_free rest).map (· + 1) else some 0

/-- The slab produced by `alloc_new_slab` in numa_pool.c: bitmap zeroed,
`free_count = objects_per_slab`. -/
def alloc_new_slab (objects : Nat) : Slab :=
  { bitmap := List.replicate objects false, free_count := objects,
    objects_per_slab := objects }

/-- One slab-state transition of the allocator, sequentialising the atomic
operations of numa_pool.c on a single slab:

* `alloc` is the claim step of `numa_slab_alloc`: `bitmap_find_and_set`
  finds the first zero bit and sets it, then `free_count` is atomically
  decremented;
* `free` is the valid-pointer path of `numa_slab_free`: the object's bit
  (currently set, i.e. the object is live) is cleared and `free_count` is
  atomically incremented. -/
inductive SlabStep : Slab → Slab → Prop
  | alloc (s : Slab) (i : Nat) (h : bitmap_find_first_free s.bitmap = some i) :
      SlabStep s { bitmap := s.bitmap.set i true, free_count := s.free_count - 1,
                   objects_per_slab := s.objects_per_slab }
  | free (s : Slab) (i : Nat) (h : s.bitmap.get? i = some true) :
      SlabStep s { bitmap := s.bitmap.set i false, free_count := s.free_count + 1,
                   objects_per_slab := s.objects_per_slab }

/-- The slab states reachable from a freshly allocated slab by allocations
and (matching) frees. -/
def SlabReachable (objects : Nat) (s : Slab) : Prop :=
  Relation.ReflTransGen SlabStep (alloc_new_slab objects) s

/-- Number of zero bits in a bitmap. -/
def free_bits (l : List Bool) : Nat := (l.filter fun b => !b).length

/-- `slab_base = ptr & ~(SLAB_SIZE - 1)` from `numa_slab_free`: mask the
user pointer down to the 4 KiB slab boundary. -/
def slab_base_of (ptr : Nat) : Nat := ptr - ptr % SLAB_SIZE

/-- Reinterpret the low 32 bits of a natural number as a signed C `int`
(the conversion applied when `offset / obj_size`, a `size_t` value, is
stored into `int obj_index`). -/
def toInt32 (n : Nat) : Int :=
  let m : Nat := n % 2 ^ 32
  if m < 2 ^ 31 then (m : Int) else (m : Int) - 2 ^ 32

/-- `2 ^ 64`, the modulus of `size_t` / `uintptr_t` arithmetic. -/
def U64 : Nat := 2 ^ 64

/-- `numa_slab_free` from numa_pool.c (lines 951-1024), as a function of
the values the code reads from memory: `magic` is the magic word of the
header found at the masked slab base, `slab_memory` the `memory` field of
the slab the header's back-pointer designates (the code requires it to
equal the masked base), `node_id`/`num_nodes` the node-range check, and
`obj_size` the size class's object size.  The result is the (possibly
updated) slab; every validation failure returns the slab unchanged, which
models the silent no-op.  The list transitions between `partial`, `full`
and `empty` guarded by the class lock are outside this per-slab model. -/
def numa_slab_free (ptr : Nat) (magic : Nat) (slab_memory : Nat) (node_id : Int)
    (num_nodes : Nat) (obj_size : Nat) (slab : Slab) : Slab :=
  let slab_base := slab_base_of ptr
  if magic ≠ SLAB_HEADER_MAGIC then slab
  else if slab_memory ≠ slab_base then slab
  else if node_id < 0 ∨ (num_nodes : Int) ≤ node_id then slab
  else
    let offset := (ptr - slab_base + (U64 - SLAB_HEADER_SIZE)) % U64
    let obj_index := toInt32 (offset / obj_size)
    if obj_index < 0 ∨ (slab.objects_per_slab : Int) ≤ obj_index then slab
    else
      { slab with bitmap := slab.bitmap.set obj_index.toNat false,
                  free_count := slab.free_count + 1 }

end SlabAlloc

namespace StrategySlots

/-- `NUMA_MAX_STRATEGY_SLOTS` from numa_strategy_slots.h. -/
def NUMA_MAX_STRATEGY_SLOTS : Nat := 16

/-- `2 ^ 64`, the modulus of `uint64_t` arithmetic. -/
def U64 : Nat := 2 ^ 64

/-- Wrapping `uint64_t` subtraction `a - b`. -/
def u64_sub (a b : Nat) : Nat := (a % U64 + (U64 - b % U64)) % U64

/-- One occupied strategy slot (`numa_strategy_t`): the fields
`numa_strategy_run_slot` and `numa_strategy_run_all` read and write.
`priority` carries the `numa_strategy_priority_t` value
(LOW = 1, NORMAL = 2, HIGH = 3). -/
structure Slot where
  priority : Nat
  enabled : Bool
  execute_interval_us : Nat
  last_execute_time : Nat
  total_executions : Nat
  total_failures : Nat
deriving DecidableEq, Repr

/-- The slot table of `numa_strategy_manager_t`: slot id to optional
strategy instance (only ids below `NUMA_MAX_STRATEGY_SLOTS` are used),
plus the two scheduler counters. -/
structure Manager where
  slots : Nat → Option Slot
  total_runs : Nat
  total_strategy_executions : Nat

/-- `numa_strategy_run_slot` from numa_strategy_slots.c (lines 521-565):
returns the updated manager and whether the slot's `execute` operation was
invoked.  `now` is the time read at entry (the same value is later stored
into `last_execute_time`); `execResult` gives each slot's `execute` return
value. -/
def numa_strategy_run_slot (execResult : Nat → Int) (now : Nat) (m : Manager)
    (slot_id : Nat) : Manager × Bool :=
  if NUMA_MAX_STRATEGY_SLOTS ≤ slot_id then (m, false)
  else
    match m.slots slot_id with
    | none => (m, false)
    | some s =>
      if ¬ s.enabled then (m, false)
      else if u64_sub now s.last_execute_time < s.execute_interval_us then (m, false)
      else
        let r := execResult slot_id
        let s1 : Slot :=
          { s with last_execute_time := now,
                   total_executions := s.total_executions + 1,
                   total_failures :=
                     if r ≠ 0 then s.total_failures + 1 else s.total_failures }
        ({ m with slots := Function.update m.slots slot_id (some s1) }, true)

/-- The inner slot loop of `numa_strategy_run_all` for one priority level:
visits the given slot ids in order, and for every occupied, enabled slot
whose priority matches calls `numa_strategy_run_slot` (which rechecks the
interval) and bumps `total_strategy_executions`.  Returns the updated
manager together with the ids whose `execute` was actually invoked, in
invocation order. -/
def run_slots_at_priority (execResult : Nat → Int) (now : Nat) (p : Nat) :
    List Nat → Manager → Manager × List Nat
  | [], m => (m, [])
  | slot_id :: rest, m =>
    match m.slots slot_id with
    | some s =>
      if s.enabled ∧ s.priority = p then
        let step := numa_strategy_run_slot execResult now m slot_id
        let m1 : Manager :=
          { step.1 with total_strategy_executions := (step.1).total_strategy_executions + 1 }
        let res := run_slots_at_priority execResult now p rest m1
        (res.1, (if step.2 then [slot_id] else []) ++ res.2)
      else run_slots_at_priority execResult now p rest m
    | none => run_slots_at_priority execResult now p rest m

/-- `numa_strategy_run_all` from numa_strategy_slots.c (lines 568-591):
iterates priorities HIGH (3) down to LOW (1) and, within each priority,
slot ids `0 .. 15` in increasing order.  Returns the updated manager and
the slot ids whose `execute` operation was invoked, in invocation
order. -/
def numa_strategy_run_all (execResult : Nat → Int) (now : Nat) (m : Manager) :
    Manager × List Nat :=
  let m0 : Manager := { m with total_runs := m.total_runs + 1 }
  let r3 := run_slots_at_priority execResult now 3 (List.range NUMA_MAX_STRATEGY_SLOTS) m0
  let r2 := run_slots_at_priority execResult now 2 (List.range NUMA_MAX_STRATEGY_SLOTS) r3.1
  let r1 := run_slots_at_priority execResult now 1 (List.range NUMA_MAX_STRATEGY_SLOTS) r2.1
  (r1.1, r3.2 ++ r2.2 ++ r1.2)

/-- Whether a slot's elapsed time since `last_execute_time` has reached its
execution interval (the complement of `run_slot`'s early-return test). -/
def slot_due (now : Nat) (s : Slot) : Bool :=
  s.execute_interval_us ≤ u64_sub now s.last_execute_time

/-- Specification predicate: slot `i` of manager `m` is occupied, enabled,
has priority `p` and is due at time `now`. -/
def should_execute (m : Manager) (now : Nat) (p : Nat) (i : Nat) : Bool :=
  match m.slots i with
  | some s => s.enabled ∧ s.priority = p ∧ slot_due now s
  | none => false

/-- The execution order the specification describes: priorities from high
to low, ids in increasing order within a priority, keeping exactly the
occupied, enabled, due slots. -/
def run_all_spec_order (m : Manager) (now : Nat) : List Nat :=
  ((List.range NUMA_MAX_STRATEGY_SLOTS).filter (should_execute m now 3)) ++
  ((List.range NUMA_MAX_STRATEGY_SLOTS).filter (should_execute m now 2)) ++
  ((List.range NUMA_MAX_STRATEGY_SLOTS).filter (should_execute m now 1))

end StrategySlots

namespace ConfigStrategy

/-- `numa_config_strategy_type_t`: the six placement strategies, in the
order of the `strategy_names` table of numa_configurable_strategy.c. -/
inductive numa_config_strategy_type_t
  | local_first
  | interleave
  | round_robin
  | weighted
  | pressure_aware
  | cxl_optimized
deriving DecidableEq, Repr

/-- The `strategy_names` table from numa_configurable_strategy.c. -/
def strategy_names : List String :=
  ["local_first", "interleaved", "round_robin", "weighted", "pressure_aware",
   "cxl_optimized"]

/-- `strcasecmp(a, b) == 0`: case-insensitive string equality
(character-wise `tolower` then comparison). -/
def strcasecmp_eq (a b : String) : Bool :=
  a.data.map Char.toLower == b.data.map Char.toLower

/-- The enum value at table index `i` (the C code casts the loop index). -/
def strategy_of_index : Nat → numa_config_strategy_type_t
  | 0 => .local_first
  | 1 => .interleave
  | 2 => .round_robin
  | 3 => .weighted
  | 4 => .pressure_aware
  | _ => .cxl_optimized

/-- The scan loop of `parse_strategy_name`: first table index whose name
matches case-insensitively. -/
def parse_scan (name : String) : List String → Nat → Option Nat
  | [], _ => none
  | n :: rest, i => if strcasecmp_eq name n then some i else parse_scan name rest (i + 1)

/-- `parse_strategy_name` from numa_configurable_strategy.c (lines 37-44):
returns the matching strategy, or `NUMA_STRATEGY_CONFIG_LOCAL_FIRST` when
no registered name matches. -/
def parse_strategy_name (name : String) : numa_config_strategy_type_t :=
  match parse_scan name strategy_names 0 with
  | some i => strategy_of_index i
  | none => .local_first

/-- The weighted-selection loop of `select_best_node`: walks the weights
accumulating `cumulative_weight` and returns the first index at which
`random_value < cumulative_weight`, or `none` when the loop falls
through (in which case `selected_node` keeps its initial value 0). -/
def weighted_scan : List Int → Int → Int → Nat → Option Nat
  | [], _, _, _ => none
  | w :: rest, random_value, cumulative, idx =>
    let cumulative1 := cumulative + w
    if random_value < cumulative1 then some idx
    else weighted_scan rest random_value cumulative1 (idx + 1)

/-- The pressure-aware argmin loop of `select_best_node`
(`min_utilization` starts at 1.0, strict `<` updates). -/
def pressure_scan : List Rat → Rat → Nat → Nat → Nat
  | [], _, sel, _ => sel
  | u :: rest, min_util, sel, idx =>
    if u < min_util then pressure_scan rest u idx (idx + 1)
    else pressure_scan rest min_util sel (idx + 1)

/-- The inputs `select_best_node` draws from the runtime state and its
environment: the configured node weights (`node_weights[0 .. num_nodes)`;
`num_nodes = node_weights.length`), the CXL minimum allocation size, the
per-node utilisations read by the pressure-aware branch, the thread's
`rand_r` draw (a non-negative C `int`) and the thread-local round-robin
counter. -/
structure SelectEnv where
  node_weights : List Int
  min_allocation_size : Nat
  utils : List Rat
  rand_value : Nat
  rr_index : Nat
deriving DecidableEq, Repr

/-- `select_best_node` from numa_configurable_strategy.c (lines 86-170),
with `num_nodes = env.node_weights.length`.  The statistics update after
selection does not affect the returned node and is omitted. -/
def select_best_node (strategy : numa_config_strategy_type_t) (env : SelectEnv)
    (size : Nat) : Nat :=
  match strategy with
  | .local_first => 0
  | .interleave => env.rand_value % env.node_weights.length
  | .round_robin => env.rr_index % env.node_weights.length
  | .weighted =>
    let total_weight : Int := env.node_weights.sum
    if 0 < total_weight then
      let random_value : Int := (env.rand_value : Int) % total_weight
      match weighted_scan env.node_weights random_value 0 0 with
      | some i => i
      | none => 0
    else 0
  | .pressure_aware => pressure_scan env.utils 1 0 0
  | .cxl_optimized =>
    if size < env.min_allocation_size then 0
    else if 1 < env.node_weights.length then 1 else 0

/-- `C_OK` from server.h. -/
def C_OK : Int := 0

/-- `C_ERR` from server.h. -/
def C_ERR : Int := -1

/-- The slice of `numa_runtime_state_t` the strategy-setting command
touches. -/
structure RuntimeState where
  initialized : Bool
  strategy_type : numa_config_strategy_type_t
  current_strategy : numa_config_strategy_type_t
deriving DecidableEq, Repr

/-- `numa_config_set_strategy` from numa_configurable_strategy.c
(lines 319-331). -/
def numa_config_set_strategy (st : RuntimeState)
    (strategy : numa_config_strategy_type_t) : Int × RuntimeState :=
  if ¬ st.initialized then (C_ERR, st)
  else (C_OK, { st with strategy_type := strategy, current_strategy := strategy })

/-- The `SET strategy` branch of `numaconfigCommand` from
numa_config_command.c (lines 101-109): parse the name, apply it, and reply
`OK` or an error string. -/
def numaconfig_set_strategy (st : RuntimeState) (value : String) :
    String × RuntimeState :=
  let strategy := parse_strategy_name value
  let r := numa_config_set_strategy st strategy
  if r.1 = C_OK then ("OK", r.2) else ("Failed to set strategy", r.2)

end ConfigStrategy

namespace Zmalloc

/-- `PREFIX_SIZE` from zmalloc.c under `HAVE_NUMA`:
`sizeof(numa_alloc_prefix_t)` = 8 + 1 + 7 = 16 bytes. -/
def PREFIX_SIZE : Nat := 16

/-- `NUMA_POOL_MAX_ALLOC` from numa_pool.h. -/
def NUMA_POOL_MAX_ALLOC : Nat := 4096

/-- `2 ^ 64`, the modulus of `size_t` arithmetic. -/
def U64 : Nat := 2 ^ 64

/-- `numa_alloc_prefix_t` from zmalloc.c: the 16-byte metadata written
immediately before every user pointer (the 7 padding bytes carry no
information). -/
structure numa_alloc_prefix_t where
  size : Nat
  from_pool : Bool
deriving DecidableEq, Repr

/-- The allocator state `numa_alloc_with_size` / `numa_free_with_size`
manipulate: the `used_memory` counter (a `size_t`, tracked modulo
`2 ^ 64`) and, for every raw allocation base address, the prefix written
there (`none` where no prefix is live). -/
structure ZState where
  used_memory : Nat
  heap : Nat → Option numa_alloc_prefix_t

/-- `update_zmalloc_stat_alloc`: `used_memory += n` in `size_t`. -/
def update_zmalloc_stat_alloc (n : Nat) (st : ZState) : ZState :=
  { st with used_memory := (st.used_memory + n) % U64 }

/-- `update_zmalloc_stat_free`: `used_memory -= n` in `size_t`
(wrapping subtraction). -/
def update_zmalloc_stat_free (n : Nat) (st : ZState) : ZState :=
  { st with used_memory := (st.used_memory + (U64 - n % U64)) % U64 }

/-- `numa_alloc_with_size` from zmalloc.c (lines 231-249).  `pool_raw` is
the raw pointer returned by `numa_pool_alloc` for `size + PREFIX_SIZE`
bytes (`none` models pool-and-fallback exhaustion, in which case the
function returns NULL and changes nothing).  On success the prefix
`{size, from_pool}` is written at the raw base, the counter grows by
`size + PREFIX_SIZE`, and the user pointer `raw + PREFIX_SIZE` is
returned. -/
def numa_alloc_with_size (size : Nat) (pool_raw : Option Nat) (st : ZState) :
    Option Nat × ZState :=
  let total_size := size + PREFIX_SIZE
  match pool_raw with
  | none => (none, st)
  | some raw =>
    let from_pool := total_size ≤ NUMA_POOL_MAX_ALLOC
    let st1 : ZState :=
      { st with heap := Function.update st.heap raw (some ⟨size, from_pool⟩) }
    let st2 := update_zmalloc_stat_alloc total_size st1
    (some (raw + PREFIX_SIZE), st2)

/-- `numa_free_with_size` from zmalloc.c (lines 251-265): NULL is a no-op;
otherwise the prefix at `user_ptr - PREFIX_SIZE` is read back, the counter
shrinks by `prefix.size + PREFIX_SIZE`, and the block is released
(reading a location where no prefix was ever written is undefined
behaviour in the C code and is modelled as a no-op). -/
def numa_free_with_size (user_ptr : Nat) (st : ZState) : ZState :=
  if user_ptr = 0 then st
  else
    match st.heap (user_ptr - PREFIX_SIZE) with
    | none => st
    | some pfx =>
      let total_size := pfx.size + PREFIX_SIZE
      let st1 := update_zmalloc_stat_free total_size st
      { st1 with heap := Function.update st1.heap (user_ptr - PREFIX_SIZE) none }

end Zmalloc

namespace Migrate

/-- Return codes from numa_key_migrate.h. -/
def NUMA_KEY_MIGRATE_OK : Int := 0

def NUMA_KEY_MIGRATE_ERR : Int := -1

def NUMA_KEY_MIGRATE_ENOENT : Int := -2

def NUMA_KEY_MIGRATE_EINVAL : Int := -3

def NUMA_KEY_MIGRATE_ENOMEM : Int := -4

def NUMA_KEY_MIGRATE_ETYPE : Int := -5

/-- The allocation environment of the migration adapters.  Every fallible
allocation the C code checks (`sdsnewlen`, `zmalloc`,
`numa_zmalloc_onnode`, `dictCreate`, `dictExpand`, `zslCreate`) draws a
fresh identifier from a counter; the oracle `ok` decides whether that
draw succeeds.  `live` is the set of identifiers currently allocated and
not yet freed. -/
structure AllocState where
  ctr : Nat
  live : Finset Nat
deriving DecidableEq

/-- One fallible allocation: on success the fresh identifier `ctr` joins
the live set. -/
def zalloc (ok : Nat → Bool) (s : AllocState) : Option Nat × AllocState :=
  if ok s.ctr then (some s.ctr, ⟨s.ctr + 1, insert s.ctr s.live⟩)
  else (none, ⟨s.ctr + 1, s.live⟩)

/-- `zfree` / `sdsfree`: remove an identifier from the live set. -/
def zfree (p : Nat) (s : AllocState) : AllocState := ⟨s.ctr, s.live.erase p⟩

/-- A Redis `dict` as the migration code sees it: the `dict` structure
allocation (`root`), the bucket table allocated by `dictExpand` (absent
until the dict is expanded), and the entries, each an sds key identifier
with an optional sds value identifier (sets store NULL values). -/
structure DictM where
  root : Nat
  table : Option Nat
  entries : List (Nat × Option Nat)
deriving DecidableEq, Repr

/-- The entry-freeing part of `dictRelease`: the dict type's key/value
destructors run over the entries in order (`freeKeys`/`freeVals` say
whether the dict type installs an sds destructor for keys/values; the
hash dict type frees both, the set dict type frees keys only, the zset
dict type frees neither). -/
def free_entries (freeKeys freeVals : Bool) :
    List (Nat × Option Nat) → AllocState → AllocState
  | [], s => s
  | (k, v?) :: rest, s =>
    let s1 := if freeKeys then zfree k s else s
    let s2 := match v? with
      | some v => if freeVals then zfree v s1 else s1
      | none => s1
    free_entries freeKeys freeVals rest s2

/-- `dictRelease`: destroy the entries, free the bucket table, free the
dict structure. -/
def dict_release (freeKeys freeVals : Bool) (d : DictM) (s : AllocState) :
    AllocState :=
  let s1 := free_entries freeKeys freeVals d.entries s
  let s2 := match d.table with
    | some t => zfree t s1
    | none => s1
  zfree d.root s2

/-- A string robj's encoding: `OBJ_ENCODING_INT` needs no migration;
`OBJ_ENCODING_RAW` / `OBJ_ENCODING_EMBSTR` carry the sds payload
identifier. -/
inductive StringEnc
  | intEncoded
  | rawStr (sdsPtr : Nat)
deriving DecidableEq, Repr

/-- `migrate_string_type` from numa_key_migrate.c (lines 254-279).
Returns the result code, the value's (possibly new) backing structure,
and the allocation state. -/
def migrate_string_type (ok : Nat → Bool) (e : StringEnc) (s : AllocState) :
    Int × StringEnc × AllocState :=
  match e with
  | .intEncoded => (NUMA_KEY_MIGRATE_OK, e, s)
  | .rawStr old =>
    match zalloc ok s with
    | (none, s1) => (NUMA_KEY_MIGRATE_ENOMEM, e, s1)
    | (some nw, s1) => (NUMA_KEY_MIGRATE_OK, .rawStr nw, zfree old s1)

/-- A hash robj's encoding: a ziplist blob or a hashtable. -/
inductive HashEnc
  | ziplist (blob : Nat)
  | hashtable (d : DictM)
  | unknownEnc
deriving DecidableEq, Repr

/-- The entry loop of `migrate_hash_type`'s hashtable branch: for every
source pair allocate a new field sds and a new value sds and add them to
the dict being built; on either allocation failing, free what the failing
iteration holds and `dictRelease` the partially built dict.  (`dictAdd`
itself can only fail on a duplicate key, which cannot occur as the source
fields are distinct; its internal entry allocation aborts rather than
returns on OOM, so it is not a fallible allocation here.) -/
def migrate_hash_entries (ok : Nat → Bool) :
    List (Nat × Option Nat) → DictM → AllocState → Option DictM × AllocState
  | [], nd, s => (some nd, s)
  | _entry :: rest, nd, s =>
    match zalloc ok s with
    | (none, s1) => (none, dict_release true true nd s1)
    | (some f, s1) =>
      match zalloc ok s1 with
      | (none, s2) => (none, dict_release true true nd (zfree f s2))
      | (some v, s2) =>
        migrate_hash_entries ok rest
          { nd with entries := nd.entries ++ [(f, some v)] } s2

/-- `migrate_hash_type` from numa_key_migrate.c (lines 282-369).  The
ziplist branch copies the blob; the hashtable branch creates a dict
(`dictCreate`), pre-expands it (`dictExpand` allocating the bucket
table), runs the entry loop, then swaps and releases the old dict. -/
def migrate_hash_type (ok : Nat → Bool) (e : HashEnc) (s : AllocState) :
    Int × HashEnc × AllocState :=
  match e with
  | .ziplist old =>
    match zalloc ok s with
    | (none, s1) => (NUMA_KEY_MIGRATE_ENOMEM, e, s1)
    | (some nw, s1) => (NUMA_KEY_MIGRATE_OK, .ziplist nw, zfree old s1)
  | .hashtable old =>
    match zalloc ok s with
    | (none, s1) => (NUMA_KEY_MIGRATE_ENOMEM, e, s1)
    | (some newRoot, s1) =>
      match zalloc ok s1 with
      | (none, s2) =>
        (NUMA_KEY_MIGRATE_ENOMEM, e, dict_release true true ⟨newRoot, none, []⟩ s2)
      | (some newTable, s2) =>
        match migrate_hash_entries ok old.entries ⟨newRoot, some newTable, []⟩ s2 with
        | (none, s3) => (NUMA_KEY_MIGRATE_ENOMEM, e, s3)
        | (some nd, s3) =>
          (NUMA_KEY_MIGRATE_OK, .hashtable nd, dict_release true true old s3)
  | .unknownEnc => (NUMA_KEY_MIGRATE_ETYPE, e, s)

/-- A quicklist node: the `quicklistNode` structure allocation and its
ziplist-data allocation (raw or LZF-compressed; both are a single copy of
the exact serialized size). -/
structure QlNode where
  nodePtr : Nat
  zl : Nat
deriving DecidableEq, Repr

/-- A quicklist: the header allocation and the node list in order. -/
structure Quicklist where
  root : Nat
  nodes : List QlNode
deriving DecidableEq, Repr

/-- The node-cleanup loop of `migrate_list_type`: walk the (partially
built or old) node chain freeing each node's ziplist data then the node
itself. -/
def ql_nodes_free (nodes : List QlNode) (s : AllocState) : AllocState :=
  match nodes with
  | [] => s
  | nd :: rest => ql_nodes_free rest (zfree nd.nodePtr (zfree nd.zl s))

/-- A list robj's encoding: `OBJ_ENCODING_QUICKLIST` or anything else. -/
inductive ListEnc
  | quicklist (ql : Quicklist)
  | unknownEnc
deriving DecidableEq, Repr

/-- The node loop of `migrate_list_type`: per source node allocate a twin
`quicklistNode` and a copy of its ziplist data, linking the twins in
order; on either allocation failing, free what the failing iteration
holds, run the cleanup loop over the nodes built so far and free the new
quicklist header. -/
def migrate_list_nodes (ok : Nat → Bool) (newRoot : Nat) :
    List QlNode → List QlNode → AllocState → Option (List QlNode) × AllocState
  | [], built, s => (some built, s)
  | _old :: rest, built, s =>
    match zalloc ok s with
    | (none, s1) => (none, zfree newRoot (ql_nodes_free built s1))
    | (some nodeId, s1) =>
      match zalloc ok s1 with
      | (none, s2) => (none, zfree newRoot (ql_nodes_free built (zfree nodeId s2)))
      | (some zlId, s2) =>
        migrate_list_nodes ok newRoot rest (built ++ [⟨nodeId, zlId⟩]) s2

/-- `migrate_list_type` from numa_key_migrate.c (lines 372-498): allocate
the new quicklist header, run the node loop, then release the old
quicklist (nodes then header) and publish the new one. -/
def migrate_list_type (ok : Nat → Bool) (e : ListEnc) (s : AllocState) :
    Int × ListEnc × AllocState :=
  match e with
  | .unknownEnc => (NUMA_KEY_MIGRATE_ETYPE, e, s)
  | .quicklist old =>
    match zalloc ok s with
    | (none, s1) => (NUMA_KEY_MIGRATE_ENOMEM, e, s1)
    | (some newRoot, s1) =>
      match migrate_list_nodes ok newRoot old.nodes [] s1 with
      | (none, s2) => (NUMA_KEY_MIGRATE_ENOMEM, e, s2)
      | (some built, s2) =>
        let s3 := zfree old.root (ql_nodes_free old.nodes s2)
        (NUMA_KEY_MIGRATE_OK, .quicklist ⟨newRoot, built⟩, s3)

/-- A set robj's encoding: an intset blob or a hashtable with NULL
values. -/
inductive SetEnc
  | intset (blob : Nat)
  | hashtable (d : DictM)
  | unknownEnc
deriving DecidableEq, Repr

/-- The member loop of `migrate_set_type`'s hashtable branch: one new sds
per member, NULL values; on failure `dictRelease` the partial dict (the
set dict type frees keys only). -/
def migrate_set_entries (ok : Nat → Bool) :
    List (Nat × Option Nat) → DictM → AllocState → Option DictM × AllocState
  | [], nd, s => (some nd, s)
  | _entry :: rest, nd, s =>
    match zalloc ok s with
    | (none, s1) => (none, dict_release true false nd s1)
    | (some mem, s1) =>
      migrate_set_entries ok rest { nd with entries := nd.entries ++ [(mem, none)] } s1

/-- `migrate_set_type` from numa_key_migrate.c (lines 501-580). -/
def migrate_set_type (ok : Nat → Bool) (e : SetEnc) (s : AllocState) :
    Int × SetEnc × AllocState :=
  match e with
  | .intset old =>
    match zalloc ok s with
    | (none, s1) => (NUMA_KEY_MIGRATE_ENOMEM, e, s1)
    | (some nw, s1) => (NUMA_KEY_MIGRATE_OK, .intset nw, zfree old s1)
  | .hashtable old =>
    match zalloc ok s with
    | (none, s1) => (NUMA_KEY_MIGRATE_ENOMEM, e, s1)
    | (some newRoot, s1) =>
      match zalloc ok s1 with
      | (none, s2) =>
        (NUMA_KEY_MIGRATE_ENOMEM, e, dict_release true false ⟨newRoot, none, []⟩ s2)
      | (some newTable, s2) =>
        match migrate_set_entries ok old.entries ⟨newRoot, some newTable, []⟩ s2 with
        | (none, s3) => (NUMA_KEY_MIGRATE_ENOMEM, e, s3)
        | (some nd, s3) =>
          (NUMA_KEY_MIGRATE_OK, .hashtable nd, dict_release true false old s3)
  | .unknownEnc => (NUMA_KEY_MIGRATE_ETYPE, e, s)

/-- A zskiplist as the migration sees it: the structure allocated by
`zslCreate` and the element sds identifiers its nodes own.  (The skiplist
node structures themselves are allocated inside `zslInsert` by the
aborting `zmalloc` and are always released together with the list by
`zslFree`; they carry no fallible allocation and are not tracked.) -/
structure Zsl where
  zslRoot : Nat
  eles : List Nat
deriving DecidableEq, Repr

/-- The node walk of `zslFree`: free every node's element sds. -/
def zsl_free_eles : List Nat → AllocState → AllocState
  | [], s => s
  | e :: rest, s => zsl_free_eles rest (zfree e s)

/-- `zslFree`: free every node's element sds, then the skiplist
structure. -/
def zsl_free (z : Zsl) (s : AllocState) : AllocState :=
  zfree z.zslRoot (zsl_free_eles z.eles s)

/-- A `zset` structure: its own allocation, the skiplist, and the score
dict (`dictCreate` root plus `dictExpand` bucket table; the zset dict
type owns neither keys nor values, both being shared with the
skiplist). -/
structure ZsetStruct where
  zsRoot : Nat
  zsl : Zsl
  dictRoot : Nat
  dictTable : Option Nat
deriving DecidableEq, Repr

/-- A zset robj's encoding: a ziplist blob or a skiplist+dict pair. -/
inductive ZsetEnc
  | ziplist (blob : Nat)
  | skiplist (zs : ZsetStruct)
deriving DecidableEq, Repr

/-- The element loop of `migrate_zset_type`'s skiplist branch: per source
element allocate one new sds, insert it into the new skiplist (and the
new dict, which does not take ownership); on failure `dictRelease` the
new dict, `zslFree` the new skiplist and free the new zset structure. -/
def migrate_zset_elements (ok : Nat → Bool) :
    List Nat → ZsetStruct → AllocState → Option ZsetStruct × AllocState
  | [], nz, s => (some nz, s)
  | _e :: rest, nz, s =>
    match zalloc ok s with
    | (none, s1) =>
      (none, zfree nz.zsRoot (zsl_free nz.zsl
        (dict_release false false ⟨nz.dictRoot, nz.dictTable, []⟩ s1)))
    | (some ele, s1) =>
      migrate_zset_elements ok rest
        { nz with zsl := { nz.zsl with eles := nz.zsl.eles ++ [ele] } } s1

/-- `migrate_zset_type` from numa_key_migrate.c (lines 583-681): the
ziplist branch copies the blob; the skiplist branch allocates the zset
structure, `zslCreate`s a skiplist, `dictCreate`s and pre-expands a dict,
runs the element loop from tail to head, then releases the old zset
(dict, skiplist, structure) and publishes the new one. -/
def migrate_zset_type (ok : Nat → Bool) (e : ZsetEnc) (s : AllocState) :
    Int × ZsetEnc × AllocState :=
  match e with
  | .ziplist old =>
    match zalloc ok s with
    | (none, s1) => (NUMA_KEY_MIGRATE_ENOMEM, e, s1)
    | (some nw, s1) => (NUMA_KEY_MIGRATE_OK, .ziplist nw, zfree old s1)
  | .skiplist old =>
    match zalloc ok s with
    | (none, s1) => (NUMA_KEY_MIGRATE_ENOMEM, e, s1)
    | (some newZs, s1) =>
      match zalloc ok s1 with
      | (none, s2) => (NUMA_KEY_MIGRATE_ENOMEM, e, zfree newZs s2)
      | (some newZsl, s2) =>
        match zalloc ok s2 with
        | (none, s3) =>
          (NUMA_KEY_MIGRATE_ENOMEM, e, zfree newZs (zsl_free ⟨newZsl, []⟩ s3))
        | (some newDictRoot, s3) =>
          match zalloc ok s3 with
          | (none, s4) =>
            (NUMA_KEY_MIGRATE_ENOMEM, e, zfree newZs (zsl_free ⟨newZsl, []⟩
              (dict_release false false ⟨newDictRoot, none, []⟩ s4)))
          | (some newTable, s4) =>
            match migrate_zset_elements ok old.zsl.eles
                ⟨newZs, ⟨newZsl, []⟩, newDictRoot, some newTable⟩ s4 with
            | (none, s5) => (NUMA_KEY_MIGRATE_ENOMEM, e, s5)
            | (some nz, s5) =>
              let s6 := zfree old.zsRoot (zsl_free old.zsl
                (dict_release false false ⟨old.dictRoot, old.dictTable, []⟩ s5))
              (NUMA_KEY_MIGRATE_OK, .skiplist nz, s6)

/-- A value object (`robj`) by type and encoding, as dispatched by
`numa_migrate_single_key`'s `switch (val->type)`. -/
inductive RVal
  | stringVal (e : StringEnc)
  | hashVal (e : HashEnc)
  | listVal (e : ListEnc)
  | setVal (e : SetEnc)
  | zsetVal (e : ZsetEnc)
  | unknownType
deriving DecidableEq, Repr

/-- The type dispatch of `numa_migrate_single_key` (lines 711-731). -/
def migrate_by_type (ok : Nat → Bool) (v : RVal) (s : AllocState) :
    Int × RVal × AllocState :=
  match v with
  | .stringVal e =>
    let r := migrate_string_type ok e s
    (r.1, .stringVal r.2.1, r.2.2)
  | .hashVal e =>
    let r := migrate_hash_type ok e s
    (r.1, .hashVal r.2.1, r.2.2)
  | .listVal e =>
    let r := migrate_list_type ok e s
    (r.1, .listVal r.2.1, r.2.2)
  | .setVal e =>
    let r := migrate_set_type ok e s
    (r.1, .setVal r.2.1, r.2.2)
  | .zsetVal e =>
    let r := migrate_zset_type ok e s
    (r.1, .zsetVal r.2.1, r.2.2)
  | .unknownType => (NUMA_KEY_MIGRATE_ETYPE, v, s)

/-- `key_numa_metadata_t` from numa_key_migrate.h. -/
structure key_numa_metadata_t where
  current_node : Int
  hotness_level : Nat
  last_access_time : Nat
  memory_footprint : Nat
  access_count : Nat
deriving DecidableEq, Repr

/-- `numa_key_migrate_stats_t` (the fields the single-key path
touches). -/
structure MigrateStats where
  total_migrations : Nat
  successful_migrations : Nat
  failed_migrations : Nat
  total_migration_time_us : Nat
deriving DecidableEq, Repr

/-- The module context `numa_key_migrate_ctx_t`: key metadata (keyed by
robj identity) and statistics. -/
structure KmCtx where
  key_metadata : List (Nat × key_numa_metadata_t)
  stats : MigrateStats
deriving DecidableEq, Repr

/-- A database: `db->dict`, keyed by key identity. -/
structure DbState where
  dict : List (Nat × RVal)
deriving DecidableEq, Repr

/-- `numa_migrate_single_key` from numa_key_migrate.c (lines 685-757):
validate the target node against `numa_max_node()` (`max_node`), look the
key up, dispatch the per-kind migration, then update statistics and — only
when a metadata record for the key already exists — set its
`current_node` to the target.  `elapsed_us` is the measured migration
duration added to the time counter. -/
def numa_migrate_single_key (ok : Nat → Bool) (ctx : KmCtx) (db : DbState)
    (key : Nat) (target_node : Int) (max_node : Nat) (elapsed_us : Nat)
    (s : AllocState) : Int × KmCtx × DbState × AllocState :=
  if target_node < 0 ∨ (max_node : Int) < target_node then
    (NUMA_KEY_MIGRATE_EINVAL, ctx, db, s)
  else
    match alookup db.dict key with
    | none => (NUMA_KEY_MIGRATE_ENOENT, ctx, db, s)
    | some val =>
      let r := migrate_by_type ok val s
      let db1 : DbState := { dict := aupdate (fun _ => r.2.1) db.dict key }
      if r.1 = NUMA_KEY_MIGRATE_OK then
        let ctx1 : KmCtx :=
          { key_metadata :=
              aupdate (fun meta => { meta with current_node := target_node })
                ctx.key_metadata key,
            stats :=
              { ctx.stats with
                total_migrations := ctx.stats.total_migrations + 1,
                successful_migrations := ctx.stats.successful_migrations + 1,
                total_migration_time_us :=
                  ctx.stats.total_migration_time_us + elapsed_us } }
        (r.1, ctx1, db1, r.2.2)
      else
        let ctx1 : KmCtx :=
          { ctx with
            stats :=
              { ctx.stats with
                total_migrations := ctx.stats.total_migrations + 1,
                failed_migrations := ctx.stats.failed_migrations + 1,
                total_migration_time_us :=
                  ctx.stats.total_migration_time_us + elapsed_us } }
        (r.1, ctx1, db1, r.2.2)

/-- `numa_get_key_current_node` from numa_key_migrate.c (lines 841-844):
the metadata record's `current_node`, or `-1` when the key has no
record. -/
def numa_get_key_current_node (ctx : KmCtx) (key : Nat) : Int :=
  match alookup ctx.key_metadata key with
  | some meta => meta.current_node
  | none => -1

/-- The encodings the per-kind adapters accept: everything except the
`default:` branches of their `switch (encoding)` statements, which return
`NUMA_KEY_MIGRATE_ETYPE` without touching anything. -/
def supported_encoding : RVal → Bool
  | .stringVal _ => true
  | .hashVal .unknownEnc => false
  | .hashVal _ => true
  | .listVal .unknownEnc => false
  | .listVal _ => true
  | .setVal .unknownEnc => false
  | .setVal _ => true
  | .zsetVal _ => true
  | .unknownType => false

/-- All identifiers in the live set were drawn before the current
counter value — true of every state produced from a fresh counter, and
exactly what makes new draws distinct from everything live. -/
def Fresh (s : AllocState) : Prop := ∀ x ∈ s.live, x < s.ctr

/-- Sequentially free a list of identifiers (the normal form every
release path of the migration adapters reduces to). -/
def erase_list (l : List Nat) (s : AllocState) : AllocState :=
  match l with
  | [] => s
  | x :: rest => erase_list rest (zfree x s)

/-- The identifiers freed by the key/value destructors of `dictRelease`
over a list of entries, in free order. -/
def entriesOwned (freeKeys freeVals : Bool) (entries : List (Nat × Option Nat)) :
    List Nat :=
  entries.flatMap fun kv =>
    (if freeKeys then [kv.1] else []) ++
      (match kv.2 with
       | some v => if freeVals then [v] else []
       | none => [])

/-- All identifiers `dict_release` frees for a dict, in free order. -/
def dictOwned (freeKeys freeVals : Bool) (d : DictM) : List Nat :=
  entriesOwned freeKeys freeVals d.entries ++
    ((match d.table with | some t => [t] | none => []) ++ [d.root])

/-- All identifiers the quicklist node-cleanup loop frees, in free
order. -/
def qlOwned (nodes : List QlNode) : List Nat :=
  nodes.flatMap fun nd => [nd.zl, nd.nodePtr]

/-- All identifiers `zsl_free` frees, in free order. -/
def zslOwned (z : Zsl) : List Nat := z.eles ++ [z.zslRoot]

/-- All identifiers the zset-loop failure path frees (new dict, new
skiplist, new zset structure), in free order. -/
def zsetOwned (nz : ZsetStruct) : List Nat :=
  dictOwned false false ⟨nz.dictRoot, nz.dictTable, []⟩ ++
    (zslOwned nz.zsl ++ [nz.zsRoot])

/-- The loop invariant of every structure-building migration loop: the
live set is the already-built new identifiers (`owned`) on top of the
initial live set `B`; the new identifiers are distinct and were all drawn
at or after the initial counter `c0`, while everything in `B` was drawn
before `c0`. -/
def OwnedInv (owned : List Nat) (c0 : Nat) (B : Finset Nat) (s : AllocState) : Prop :=
  s.live = owned.toFinset ∪ B ∧ owned.Nodup ∧
    (∀ x ∈ owned, c0 ≤ x ∧ x < s.ctr) ∧ (∀ x ∈ B, x < c0) ∧ c0 ≤ s.ctr

end Migrate

/-! ### Generic association-list lemmas -/

theorem alookup_aupdate_self {α : Type} (f : α → α) (l : List (Nat × α)) (key : Nat) :
    alookup (aupdate f l key) key = (alookup l key).map f := by
  induction l with
  | nil => simp [alookup, aupdate]
  | cons kv rest ih =>
    obtain ⟨k, v⟩ := kv
    by_cases h : k = key <;> simp [alookup, aupdate, h, ih]

/-! ### Arithmetic helper -/

theorem mod_add_sub_roundtrip (u t M : Nat) (hu : u < M) (ht : t < M) :
    ((u + t) % M + (M - t % M)) % M = u := by
  have h1 : t % M = t := Nat.mod_eq_of_lt ht
  rw [h1, Nat.mod_add_mod]
  have h3 : u + t + (M - t) = u + M := by omega
  rw [h3, Nat.add_mod_right]
  exact Nat.mod_eq_of_lt hu

/-! ### Claim C4 — stability-gated decay -/

/-- C4: one decay pass decrements a record's hotness only when its
time-since-last-access exceeds the decay threshold and the stability
counter, incremented on that cold pass, already exceeds the configured
`stability_count`; a pass finding a recent access resets the stability
counter to 0; and a record at hotness 5 (decay threshold 100 ticks,
stability count 3) left un-accessed while the clock advances 500 ticks
ends, after four decay passes, at hotness 4 with the counter reset. -/
theorem C4_decay_stability_gate :
    (∀ thr scount ctime info,
      (CompositeLru.composite_lru_decay_one thr scount ctime info).1.hotness
          < info.hotness →
        thr < CompositeLru.calculate_time_delta ctime info.last_access ∧
        scount < (info.stability_counter + 1) % 256 ∧ 0 < info.hotness) ∧
    (∀ thr scount ctime info,
      CompositeLru.calculate_time_delta ctime info.last_access ≤ thr →
        (CompositeLru.composite_lru_decay_one thr scount ctime info).1.stability_counter
          = 0) ∧
    (let st0 : CompositeLru.LruState :=
      { decay_threshold := 100000000, stability_count := 3,
        migrate_hotness_threshold := 5,
        key_heat_map := [(1, ⟨5, 0, 1000, 1, 0, -1⟩)], pending_migrations := [],
        heat_updates := 0, decay_operations := 0 }
     let st4 :=
       CompositeLru.composite_lru_decay_heat
         (CompositeLru.composite_lru_decay_heat
           (CompositeLru.composite_lru_decay_heat
             (CompositeLru.composite_lru_decay_heat st0 1500) 1500) 1500) 1500
     alookup st4.key_heat_map 1 = some ⟨4, 0, 1000, 1, 0, -1⟩ ∧
       st4.decay_operations = 1) := by
  refine ⟨?_, ?_, ?_⟩
  · intro thr scount ctime info h
    unfold CompositeLru.composite_lru_decay_one at h
    simp only [CompositeLru.HOTNESS_MIN] at h
    split_ifs at h with h1 h2 h3 <;> simp_all
  · intro thr scount ctime info h
    unfold CompositeLru.composite_lru_decay_one
    have h1 : ¬ thr < CompositeLru.calculate_time_delta ctime info.last_access := by
      omega
    simp [h1]
  · decide

/-- C4 witness: the gate conjunct applied at a concrete cold record whose
incremented counter has not yet passed the threshold. -/
theorem C4_decay_stability_gate_witness :
    CompositeLru.calculate_time_delta 700 200 ≤ 600 →
    (CompositeLru.composite_lru_decay_one 600 3 700 ⟨5, 2, 200, 9, 0, -1⟩).1.stability_counter
      = 0 :=
  fun h => C4_decay_stability_gate.2.1 600 3 700 ⟨5, 2, 200, 9, 0, -1⟩ h

/-! ### Claim C3 — remote access does not enqueue a pending migration -/

/-- C3: evaluating `composite_lru_record_access` at the failing input: a
record with hotness 7 and current node 0, accessed from node 1 with the
default migration threshold 5.  The access is remote and the hotness is
above the threshold, the preferred node is recorded, yet the
pending-migration queue stays empty — the code only logs and never
enqueues. -/
theorem C3_record_access_enqueues_nothing :
    (let st0 : CompositeLru.LruState :=
      { decay_threshold := 10000000, stability_count := 3,
        migrate_hotness_threshold := 5,
        key_heat_map := [(1, ⟨7, 0, 100, 1, 0, -1⟩)], pending_migrations := [],
        heat_updates := 0, decay_operations := 0 }
     let st1 := CompositeLru.composite_lru_record_access st0 1 1 200
     st1.pending_migrations = [] ∧
       alookup st1.key_heat_map 1 = some ⟨7, 0, 200, 2, 0, 1⟩ ∧
       st0.migrate_hotness_threshold ≤ 7 ∧ (0 : Int) ≠ 1) := by
  decide

/-! ### Claim C9 — alloc/free round trip on the used-memory counter -/

/-- C9: for every size and raw pool pointer, a successful
`numa_alloc_with_size` records the size in the 16-byte prefix and adds
`size + PREFIX_SIZE` to the counter, and `numa_free_with_size` of the
returned user pointer reads the same size back and restores the counter
to its prior value. -/
theorem C9_alloc_free_counter_roundtrip :
    ∀ size raw (st : Zmalloc.ZState),
      st.used_memory < Zmalloc.U64 → size + Zmalloc.PREFIX_SIZE < Zmalloc.U64 →
      (Zmalloc.numa_alloc_with_size size (some raw) st).1
          = some (raw + Zmalloc.PREFIX_SIZE) ∧
      ((Zmalloc.numa_alloc_with_size size (some raw) st).2.heap
          (raw + Zmalloc.PREFIX_SIZE - Zmalloc.PREFIX_SIZE)).map
            Zmalloc.numa_alloc_prefix_t.size = some size ∧
      (Zmalloc.numa_free_with_size (raw + Zmalloc.PREFIX_SIZE)
          (Zmalloc.numa_alloc_with_size size (some raw) st).2).used_memory
        = st.used_memory := by
  intro size raw st hu ht
  have hraw : raw + Zmalloc.PREFIX_SIZE - Zmalloc.PREFIX_SIZE = raw := by omega
  have hnz : raw + Zmalloc.PREFIX_SIZE ≠ 0 := by
    simp [Zmalloc.PREFIX_SIZE]
  refine ⟨rfl, ?_, ?_⟩
  · simp [Zmalloc.numa_alloc_with_size, Zmalloc.update_zmalloc_stat_alloc, hraw]
  · simp only [Zmalloc.numa_alloc_with_size, Zmalloc.numa_free_with_size,
      Zmalloc.update_zmalloc_stat_alloc, Zmalloc.update_zmalloc_stat_free, hraw,
      hnz, if_false, Function.update_same]
    exact mod_add_sub_roundtrip _ _ _ hu ht

/-- C9 witness: the round trip at size 100, raw base 4096, on an empty
allocator state. -/
theorem C9_alloc_free_counter_roundtrip_witness :
    (⟨0, fun _ => none⟩ : Zmalloc.ZState).used_memory < Zmalloc.U64 ∧
    100 + Zmalloc.PREFIX_SIZE < Zmalloc.U64 ∧
    (Zmalloc.numa_free_with_size (4096 + Zmalloc.PREFIX_SIZE)
        (Zmalloc.numa_alloc_with_size 100 (some 4096)
          (⟨0, fun _ => none⟩ : Zmalloc.ZState)).2).used_memory
      = (⟨0, fun _ => none⟩ : Zmalloc.ZState).used_memory := by
  have h1 : (⟨0, fun _ => none⟩ : Zmalloc.ZState).used_memory < Zmalloc.U64 := by
    simp [Zmalloc.U64]
  have h2 : 100 + Zmalloc.PREFIX_SIZE < Zmalloc.U64 := by
    simp [Zmalloc.U64, Zmalloc.PREFIX_SIZE]
  exact ⟨h1, h2,
    (C9_alloc_free_counter_roundtrip 100 4096 ⟨0, fun _ => none⟩ h1 h2).2.2⟩

/-! ### Claim C5 — slab bitmap zero bits equal free_count -/

theorem bitmap_find_first_free_spec (l : List Bool) (i : Nat)
    (h : SlabAlloc.bitmap_find_first_free l = some i) : l.get? i = some false := by
  induction l generalizing i with
  | nil => simp [SlabAlloc.bitmap_find_first_free] at h
  | cons b rest ih =>
    cases b with
    | true =>
      simp only [SlabAlloc.bitmap_find_first_free, if_true, Option.map_eq_some'] at h
      obtain ⟨j, hj, rfl⟩ := h
      simpa using ih j hj
    | false =>
      simp [SlabAlloc.bitmap_find_first_free] at h
      subst h
      simp

theorem free_bits_cons (b : Bool) (rest : List Bool) :
    SlabAlloc.free_bits (b :: rest) =
      (if b then 0 else 1) + SlabAlloc.free_bits rest := by
  cases b <;> simp [SlabAlloc.free_bits, List.filter]
  omega

theorem free_bits_set_true (l : List Bool) (i : Nat) (h : l.get? i = some false) :
    SlabAlloc.free_bits (l.set i true) + 1 = SlabAlloc.free_bits l := by
  induction l generalizing i with
  | nil => simp at h
  | cons b rest ih =>
    cases i with
    | zero =>
      simp only [List.get?, Option.some.injEq] at h
      subst h
      simp [List.set, free_bits_cons]
      omega
    | succ j =>
      simp only [List.get?] at h
      simp only [List.set, free_bits_cons]
      have := ih j h
      omega

theorem free_bits_set_false (l : List Bool) (i : Nat) (h : l.get? i = some true) :
    SlabAlloc.free_bits (l.set i false) = SlabAlloc.free_bits l + 1 := by
  induction l generalizing i with
  | nil => simp at h
  | cons b rest ih =>
    cases i with
    | zero =>
      simp only [List.get?, Option.some.injEq] at h
      subst h
      simp [List.set, free_bits_cons]
      omega
    | succ j =>
      simp only [List.get?] at h
      simp only [List.set, free_bits_cons]
      have := ih j h
      omega

theorem free_bits_replicate (n : Nat) :
    SlabAlloc.free_bits (List.replicate n false) = n := by
  induction n with
  | zero => rfl
  | succ k ih =>
    simp [List.replicate, free_bits_cons, ih]
    omega

theorem slab_step_invariant (a b : SlabAlloc.Slab) (hstep : SlabAlloc.SlabStep a b)
    (hinv : SlabAlloc.free_bits a.bitmap = a.free_count) :
    SlabAlloc.free_bits b.bitmap = b.free_count := by
  cases hstep with
  | alloc i h =>
    have hget := bitmap_find_first_free_spec a.bitmap i h
    have hset := free_bits_set_true a.bitmap i hget
    simp only at hinv ⊢
    omega
  | free i h =>
    have hset := free_bits_set_false a.bitmap i h
    simp only at hinv ⊢
    omega

theorem slab_reachable_invariant (n : Nat) (s : SlabAlloc.Slab)
    (h : SlabAlloc.SlabReachable n s) :
    SlabAlloc.free_bits s.bitmap = s.free_count := by
  induction h with
  | refl => simpa [SlabAlloc.alloc_new_slab] using free_bits_replicate n
  | tail _ hstep ih => exact slab_step_invariant _ _ hstep ih

/-- C5: in every reachable slab state the number of zero bits in the
occupancy bitmap equals `free_count`; moreover an allocation that claims
bit `i` removes exactly one zero bit and decrements `free_count` by one
(which never underflows), and a free that clears a set bit adds exactly
one zero bit and increments `free_count` by one. -/
theorem C5_slab_zero_bits_eq_free_count :
    (∀ n s, SlabAlloc.SlabReachable n s →
      SlabAlloc.free_bits s.bitmap = s.free_count) ∧
    (∀ n s i, SlabAlloc.SlabReachable n s →
      SlabAlloc.bitmap_find_first_free s.bitmap = some i →
      0 < s.free_count ∧
      SlabAlloc.free_bits (s.bitmap.set i true) + 1 = SlabAlloc.free_bits s.bitmap ∧
      SlabAlloc.free_bits (s.bitmap.set i true) = s.free_count - 1) ∧
    (∀ n s i, SlabAlloc.SlabReachable n s → s.bitmap.get? i = some true →
      SlabAlloc.free_bits (s.bitmap.set i false) = SlabAlloc.free_bits s.bitmap + 1 ∧
      SlabAlloc.free_bits (s.bitmap.set i false) = s.free_count + 1) := by
  refine ⟨slab_reachable_invariant, ?_, ?_⟩
  · intro n s i hreach hfind
    have hinv := slab_reachable_invariant n s hreach
    have hget := bitmap_find_first_free_spec s.bitmap i hfind
    have hset := free_bits_set_true s.bitmap i hget
    exact ⟨by omega, hset, by omega⟩
  · intro n s i hreach hget
    have hinv := slab_reachable_invariant n s hreach
    have hset := free_bits_set_false s.bitmap i hget
    exact ⟨hset, by omega⟩

/-- C5 witness: the invariant evaluated on the slab state reached from a
fresh two-object slab by one allocation. -/
theorem C5_slab_zero_bits_eq_free_count_witness :
    SlabAlloc.free_bits (SlabAlloc.Slab.mk [true, false] 1 2).bitmap
      = (SlabAlloc.Slab.mk [true, false] 1 2).free_count :=
  C5_slab_zero_bits_eq_free_count.1 2 ⟨[true, false], 1, 2⟩
    (Relation.ReflTransGen.single (SlabAlloc.SlabStep.alloc (SlabAlloc.alloc_new_slab 2) 0 rfl))

/-! ### Claim C6 — slab free validates and no-ops on corruption -/

/-- C6: the slab free path masks the pointer down to the 4 KiB slab
boundary (the masked base is the largest multiple of `SLAB_SIZE` not
above the pointer), and a magic mismatch, a back-pointer/base mismatch,
or an out-of-range object index each leave the slab — and with it all
allocator state the free could touch — unchanged; the function is total,
so the host never aborts. -/
theorem C6_slab_free_silent_noop :
    (∀ ptr, SlabAlloc.SLAB_SIZE ∣ SlabAlloc.slab_base_of ptr ∧
      SlabAlloc.slab_base_of ptr ≤ ptr ∧
      ptr < SlabAlloc.slab_base_of ptr + SlabAlloc.SLAB_SIZE) ∧
    (∀ ptr magic mem nid nn osz slab, magic ≠ SlabAlloc.SLAB_HEADER_MAGIC →
      SlabAlloc.numa_slab_free ptr magic mem nid nn osz slab = slab) ∧
    (∀ ptr mem nid nn osz slab, mem ≠ SlabAlloc.slab_base_of ptr →
      SlabAlloc.numa_slab_free ptr SlabAlloc.SLAB_HEADER_MAGIC mem nid nn osz slab
        = slab) ∧
    (∀ ptr nid nn osz slab,
      (SlabAlloc.toInt32 (((ptr - SlabAlloc.slab_base_of ptr +
            (SlabAlloc.U64 - SlabAlloc.SLAB_HEADER_SIZE)) % SlabAlloc.U64) / osz) < 0 ∨
        (slab.objects_per_slab : Int) ≤
          SlabAlloc.toInt32 (((ptr - SlabAlloc.slab_base_of ptr +
            (SlabAlloc.U64 - SlabAlloc.SLAB_HEADER_SIZE)) % SlabAlloc.U64) / osz)) →
      SlabAlloc.numa_slab_free ptr SlabAlloc.SLAB_HEADER_MAGIC
          (SlabAlloc.slab_base_of ptr) nid nn osz slab = slab) := by
  refine ⟨?_, ?_, ?_, ?_⟩
  · intro ptr
    have hdm := Nat.div_add_mod ptr SlabAlloc.SLAB_SIZE
    have hlt : ptr % SlabAlloc.SLAB_SIZE < SlabAlloc.SLAB_SIZE :=
      Nat.mod_lt ptr (by simp [SlabAlloc.SLAB_SIZE])
    refine ⟨⟨ptr / SlabAlloc.SLAB_SIZE, ?_⟩, ?_, ?_⟩ <;>
      simp only [SlabAlloc.slab_base_of] <;> omega
  · intro ptr magic mem nid nn osz slab h
    simp [SlabAlloc.numa_slab_free, h]
  · intro ptr mem nid nn osz slab h
    simp [SlabAlloc.numa_slab_free, h]
  · intro ptr nid nn osz slab h
    simp only [SlabAlloc.numa_slab_free]
    split_ifs with h1 h2 h3 <;> rfl

/-- C6 witness: a wrong-magic free of pointer 8200 leaves a concrete slab
untouched. -/
theorem C6_slab_free_silent_noop_witness :
    (0xDEAD : Nat) ≠ SlabAlloc.SLAB_HEADER_MAGIC ∧
    SlabAlloc.numa_slab_free 8200 0xDEAD 8192 0 2 48
        ⟨[true, false, true], 1, 3⟩ = ⟨[true, false, true], 1, 3⟩ := by
  have h : (0xDEAD : Nat) ≠ SlabAlloc.SLAB_HEADER_MAGIC := by decide
  exact ⟨h, C6_slab_free_silent_noop.2.1 8200 0xDEAD 8192 0 2 48
    ⟨[true, false, true], 1, 3⟩ h⟩

/-! ### Claim C7 — run_all visits priorities high to low, ids ascending -/

theorem should_execute_slots_congr (m1 m2 : StrategySlots.Manager) (now q j : Nat)
    (h : m1.slots = m2.slots) :
    StrategySlots.should_execute m1 now q j = StrategySlots.should_execute m2 now q j := by
  unfold StrategySlots.should_execute
  rw [h]

theorem run_slot_not_due (e : Nat → Int) (now : Nat) (m : StrategySlots.Manager)
    (i : Nat) (s : StrategySlots.Slot) (hi : i < StrategySlots.NUMA_MAX_STRATEGY_SLOTS)
    (hs : m.slots i = some s) (hen : s.enabled = true)
    (hdue : StrategySlots.slot_due now s = false) :
    StrategySlots.numa_strategy_run_slot e now m i = (m, false) := by
  have hlt : StrategySlots.u64_sub now s.last_execute_time < s.execute_interval_us := by
    simp only [StrategySlots.slot_due, decide_eq_false_iff_not, not_le] at hdue
    exact hdue
  simp [StrategySlots.numa_strategy_run_slot, Nat.not_le_of_lt hi, hs, hen, hlt]

theorem run_slot_due (e : Nat → Int) (now : Nat) (m : StrategySlots.Manager)
    (i : Nat) (s : StrategySlots.Slot) (hi : i < StrategySlots.NUMA_MAX_STRATEGY_SLOTS)
    (hs : m.slots i = some s) (hen : s.enabled = true)
    (hdue : StrategySlots.slot_due now s = true) :
    StrategySlots.numa_strategy_run_slot e now m i =
      ({ m with slots := Function.update m.slots i (some
          { s with last_execute_time := now,
                   total_executions := s.total_executions + 1,
                   total_failures :=
                     if e i ≠ 0 then s.total_failures + 1 else s.total_failures }) },
        true) := by
  have hge : ¬ StrategySlots.u64_sub now s.last_execute_time < s.execute_interval_us := by
    simp only [StrategySlots.slot_due, decide_eq_true_eq] at hdue
    omega
  simp [StrategySlots.numa_strategy_run_slot, Nat.not_le_of_lt hi, hs, hen, hge]

theorem run_slots_at_priority_spec (e : Nat → Int) (now p : Nat) :
    ∀ (ids : List Nat) (m : StrategySlots.Manager), ids.Nodup →
      (∀ i ∈ ids, i < StrategySlots.NUMA_MAX_STRATEGY_SLOTS) →
      (StrategySlots.run_slots_at_priority e now p ids m).2
          = ids.filter (StrategySlots.should_execute m now p) ∧
      (∀ q j, q ≠ p →
        StrategySlots.should_execute
            (StrategySlots.run_slots_at_priority e now p ids m).1 now q j
          = StrategySlots.should_execute m now q j) := by
  intro ids
  induction ids with
  | nil => intro m _ _; exact ⟨rfl, fun _ _ _ => rfl⟩
  | cons i rest ih =>
    intro m hnodup hbound
    have hi : i < StrategySlots.NUMA_MAX_STRATEGY_SLOTS := hbound i (by simp)
    have hrestb : ∀ x ∈ rest, x < StrategySlots.NUMA_MAX_STRATEGY_SLOTS :=
      fun x hx => hbound x (by simp [hx])
    have hrestnd : rest.Nodup := (List.nodup_cons.mp hnodup).2
    have hinotin : i ∉ rest := (List.nodup_cons.mp hnodup).1
    cases hslot : m.slots i with
    | none =>
      have hse : StrategySlots.should_execute m now p i = false := by
        simp [StrategySlots.should_execute, hslot]
      obtain ⟨ha, hb⟩ := ih m hrestnd hrestb
      simp only [StrategySlots.run_slots_at_priority, hslot]
      refine ⟨?_, hb⟩
      rw [ha, List.filter_cons, hse]
      simp
    | some s =>
      by_cases hcond : s.enabled = true ∧ s.priority = p
      · obtain ⟨hen, hpr⟩ := hcond
        cases hdue : StrategySlots.slot_due now s with
        | false =>
          have hstep := run_slot_not_due e now m i s hi hslot hen hdue
          have hse : StrategySlots.should_execute m now p i = false := by
            simp [StrategySlots.should_execute, hslot, hdue]
          simp only [StrategySlots.run_slots_at_priority, hslot]
          rw [if_pos ⟨hen, hpr⟩, hstep]
          obtain ⟨ha, hb⟩ :=
            ih { m with total_strategy_executions := m.total_strategy_executions + 1 }
              hrestnd hrestb
          have hcongr : ∀ q j, StrategySlots.should_execute
              { m with total_strategy_executions := m.total_strategy_executions + 1 }
                now q j
              = StrategySlots.should_execute m now q j :=
            fun q j => should_execute_slots_congr _ _ now q j rfl
          constructor
          · simp only [ha, List.filter_cons, hse]
            simp only [Bool.false_eq_true, if_false, List.nil_append]
            exact List.filter_congr fun j _ => hcongr p j
          · intro q j hq
            simp only [hb q j hq, hcongr q j]
        | true =>
          have hstep := run_slot_due e now m i s hi hslot hen hdue
          have hse : StrategySlots.should_execute m now p i = true := by
            simp [StrategySlots.should_execute, hslot, hen, hpr, hdue]
          simp only [StrategySlots.run_slots_at_priority, hslot]
          rw [if_pos ⟨hen, hpr⟩, hstep]
          have hm1slots : ∀ j, j ≠ i →
              (Function.update m.slots i (some
                { s with last_execute_time := now,
                         total_executions := s.total_executions + 1,
                         total_failures :=
                           if e i ≠ 0 then s.total_failures + 1
                           else s.total_failures })) j = m.slots j :=
            fun j hj => Function.update_noteq hj _ _
          obtain ⟨ha, hb⟩ :=
            ih { slots := Function.update m.slots i (some
                  { s with last_execute_time := now,
                           total_executions := s.total_executions + 1,
                           total_failures :=
                             if e i ≠ 0 then s.total_failures + 1
                             else s.total_failures }),
                 total_runs := m.total_runs,
                 total_strategy_executions := m.total_strategy_executions + 1 }
              hrestnd hrestb
          have hcongr : ∀ q j, q ≠ p →
              StrategySlots.should_execute
                { slots := Function.update m.slots i (some
                    { s with last_execute_time := now,
                             total_executions := s.total_executions + 1,
                             total_failures :=
                               if e i ≠ 0 then s.total_failures + 1
                               else s.total_failures }),
                  total_runs := m.total_runs,
                  total_strategy_executions := m.total_strategy_executions + 1 }
                  now q j
                = StrategySlots.should_execute m now q j := by
            intro q j hq
            by_cases hj : j = i
            · subst hj
              simp [StrategySlots.should_execute, Function.update_same, hslot, hpr,
                Ne.symm hq]
            · unfold StrategySlots.should_execute
              simp only [hm1slots j hj]
          have hcongr_p : ∀ j ∈ rest,
              StrategySlots.should_execute
                { slots := Function.update m.slots i (some
                    { s with last_execute_time := now,
                             total_executions := s.total_executions + 1,
                             total_failures :=
                               if e i ≠ 0 then s.total_failures + 1
                               else s.total_failures }),
                  total_runs := m.total_runs,
                  total_strategy_executions := m.total_strategy_executions + 1 }
                  now p j
                = StrategySlots.should_execute m now p j := by
            intro j hj
            have hji : j ≠ i := fun hh => hinotin (hh ▸ hj)
            unfold StrategySlots.should_execute
            simp only [hm1slots j hji]
          constructor
          · simp only [ha, List.filter_cons, hse, if_true, List.singleton_append,
              List.cons.injEq, true_and]
            exact List.filter_congr hcongr_p
          · intro q j hq
            simp only [hb q j hq, hcongr q j hq]
      · have hse : StrategySlots.should_execute m now p i = false := by
          cases hen : s.enabled with
          | false => simp [StrategySlots.should_execute, hslot, hen]
          | true =>
            have hpr : ¬ s.priority = p := fun hp => hcond ⟨hen, hp⟩
            simp [StrategySlots.should_execute, hslot, hen, hpr]
        obtain ⟨ha, hb⟩ := ih m hrestnd hrestb
        simp only [StrategySlots.run_slots_at_priority, hslot, if_neg hcond]
        refine ⟨?_, hb⟩
        rw [ha, List.filter_cons, hse]
        simp

/-- C7: `numa_strategy_run_all` invokes exactly the occupied, enabled,
due slots, visiting priorities from high (3) to low (1) and ids in
increasing order within a priority (the executed-id list equals the
specification order); a disabled slot is never executed, and for an
occupied slot with a legal priority the execute operation is invoked
exactly when the slot is enabled and its elapsed time has reached its
interval. -/
theorem C7_run_all_priority_order :
    ∀ (e : Nat → Int) (now : Nat) (m : StrategySlots.Manager),
      (StrategySlots.numa_strategy_run_all e now m).2
          = StrategySlots.run_all_spec_order m now ∧
      (∀ i s, m.slots i = some s → s.enabled = false →
        i ∉ (StrategySlots.numa_strategy_run_all e now m).2) ∧
      (∀ i s, m.slots i = some s →
        (s.priority = 1 ∨ s.priority = 2 ∨ s.priority = 3) →
        (i ∈ (StrategySlots.numa_strategy_run_all e now m).2 ↔
          i < StrategySlots.NUMA_MAX_STRATEGY_SLOTS ∧ s.enabled = true ∧
            StrategySlots.slot_due now s = true)) := by
  intro e now m
  have hnd : (List.range StrategySlots.NUMA_MAX_STRATEGY_SLOTS).Nodup :=
    List.nodup_range _
  have hbd : ∀ i ∈ List.range StrategySlots.NUMA_MAX_STRATEGY_SLOTS,
      i < StrategySlots.NUMA_MAX_STRATEGY_SLOTS := fun i hi => List.mem_range.mp hi
  have hmain : (StrategySlots.numa_strategy_run_all e now m).2
      = StrategySlots.run_all_spec_order m now := by
    simp only [StrategySlots.numa_strategy_run_all]
    set m0 : StrategySlots.Manager := { m with total_runs := m.total_runs + 1 } with hm0
    obtain ⟨h3a, h3b⟩ := run_slots_at_priority_spec e now 3
      (List.range StrategySlots.NUMA_MAX_STRATEGY_SLOTS) m0 hnd hbd
    set m3 := (StrategySlots.run_slots_at_priority e now 3
      (List.range StrategySlots.NUMA_MAX_STRATEGY_SLOTS) m0).1 with hm3
    obtain ⟨h2a, h2b⟩ := run_slots_at_priority_spec e now 2
      (List.range StrategySlots.NUMA_MAX_STRATEGY_SLOTS) m3 hnd hbd
    set m2 := (StrategySlots.run_slots_at_priority e now 2
      (List.range StrategySlots.NUMA_MAX_STRATEGY_SLOTS) m3).1 with hm2
    obtain ⟨h1a, _⟩ := run_slots_at_priority_spec e now 1
      (List.range StrategySlots.NUMA_MAX_STRATEGY_SLOTS) m2 hnd hbd
    have hc0 : ∀ q j, StrategySlots.should_execute m0 now q j
        = StrategySlots.should_execute m now q j :=
      fun q j => should_execute_slots_congr _ _ now q j rfl
    rw [StrategySlots.run_all_spec_order]
    rw [h3a, h2a, h1a]
    have e3 : (List.range StrategySlots.NUMA_MAX_STRATEGY_SLOTS).filter
          (StrategySlots.should_execute m0 now 3)
        = (List.range StrategySlots.NUMA_MAX_STRATEGY_SLOTS).filter
            (StrategySlots.should_execute m now 3) :=
      List.filter_congr fun j _ => hc0 3 j
    have e2 : (List.range StrategySlots.NUMA_MAX_STRATEGY_SLOTS).filter
          (StrategySlots.should_execute m3 now 2)
        = (List.range StrategySlots.NUMA_MAX_STRATEGY_SLOTS).filter
            (StrategySlots.should_execute m now 2) :=
      List.filter_congr fun j _ => by rw [h3b 2 j (by omega), hc0 2 j]
    have e1 : (List.range StrategySlots.NUMA_MAX_STRATEGY_SLOTS).filter
          (StrategySlots.should_execute m2 now 1)
        = (List.range StrategySlots.NUMA_MAX_STRATEGY_SLOTS).filter
            (StrategySlots.should_execute m now 1) :=
      List.filter_congr fun j _ => by
        rw [h2b 1 j (by omega), h3b 1 j (by omega), hc0 1 j]
    rw [e3, e2, e1]
  refine ⟨hmain, ?_, ?_⟩
  · intro i s hs hen
    rw [hmain]
    have hse : ∀ p, StrategySlots.should_execute m now p i = false := by
      intro p
      simp [StrategySlots.should_execute, hs, hen]
    simp [StrategySlots.run_all_spec_order, List.mem_append, List.mem_filter, hse]
  · intro i s hs hpr
    rw [hmain]
    rcases hpr with hp | hp | hp <;>
      simp [StrategySlots.run_all_spec_order, List.mem_append, List.mem_filter,
        List.mem_range, StrategySlots.should_execute, hs, hp]

/-- C7 witness: the executed-order equality at a concrete two-slot
manager — slot 0 enabled low-priority and due (it executes), slot 1
occupied but disabled (it does not). -/
theorem C7_run_all_priority_order_witness :
    (StrategySlots.numa_strategy_run_all (fun _ => 0) 2000000
      { slots := fun i =>
          if i = 0 then some ⟨1, true, 1000000, 0, 0, 0⟩
          else if i = 1 then some ⟨3, false, 1000000, 0, 0, 0⟩
          else none,
        total_runs := 0, total_strategy_executions := 0 }).2 = [0] := by
  rw [(C7_run_all_priority_order (fun _ => 0) 2000000
    { slots := fun i =>
        if i = 0 then some ⟨1, true, 1000000, 0, 0, 0⟩
        else if i = 1 then some ⟨3, false, 1000000, 0, 0, 0⟩
        else none,
      total_runs := 0, total_strategy_executions := 0 }).1]
  decide

/-! ### Claim C8 — weighted strategy excludes zero-weight nodes -/

theorem weighted_scan_some_pos (l : List Int) (rv : Int) :
    ∀ (cum : Int) (idx j : Nat), (∀ w ∈ l, 0 ≤ w) → cum ≤ rv →
      ConfigStrategy.weighted_scan l rv cum idx = some j →
      idx ≤ j ∧ ∃ w, l.get? (j - idx) = some w ∧ 0 < w := by
  induction l with
  | nil => intro cum idx j _ _ h; simp [ConfigStrategy.weighted_scan] at h
  | cons w rest ih =>
    intro cum idx j hnn hcum h
    simp only [ConfigStrategy.weighted_scan] at h
    by_cases hlt : rv < cum + w
    · rw [if_pos hlt] at h
      cases h
      refine ⟨le_refl _, w, ?_, by omega⟩
      simp
    · rw [if_neg hlt] at h
      obtain ⟨hj, w', hw', hpos⟩ :=
        ih (cum + w) (idx + 1) j (fun x hx => hnn x (by simp [hx])) (by omega) h
      refine ⟨by omega, w', ?_, hpos⟩
      have hidx : j - idx = (j - (idx + 1)) + 1 := by omega
      rw [hidx]
      simpa using hw'

theorem weighted_scan_isSome (l : List Int) (rv : Int) :
    ∀ (cum : Int) (idx : Nat), cum ≤ rv → rv < cum + l.sum →
      (ConfigStrategy.weighted_scan l rv cum idx).isSome := by
  induction l with
  | nil =>
    intro cum idx hcum h
    simp only [List.sum_nil, add_zero] at h
    omega
  | cons w rest ih =>
    intro cum idx hcum h
    simp only [ConfigStrategy.weighted_scan]
    by_cases hlt : rv < cum + w
    · rw [if_pos hlt]; rfl
    · rw [if_neg hlt]
      refine ih (cum + w) (idx + 1) (by omega) ?_
      simp only [List.sum_cons] at h
      omega

/-- C8: under the weighted strategy with non-negative configured weights
(the admin surface clamps weights to `0 .. 1000`), a node of weight zero
is never selected while some node has positive weight, and with all
weights zero the selection degrades to node 0. -/
theorem C8_weighted_excludes_zero_weight :
    ∀ (env : ConfigStrategy.SelectEnv) (size : Nat),
      (∀ w ∈ env.node_weights, 0 ≤ w) →
      ((∃ w ∈ env.node_weights, 0 < w) →
        ∀ i, env.node_weights.get? i = some 0 →
          ConfigStrategy.select_best_node
            ConfigStrategy.numa_config_strategy_type_t.weighted env size ≠ i) ∧
      ((∀ w ∈ env.node_weights, w = 0) →
        ConfigStrategy.select_best_node
          ConfigStrategy.numa_config_strategy_type_t.weighted env size = 0) := by
  intro env size hnn
  constructor
  · intro hpos i hzero
    obtain ⟨w0, hw0mem, hw0pos⟩ := hpos
    obtain ⟨l1, l2, hsplit⟩ := List.append_of_mem hw0mem
    have htot : 0 < env.node_weights.sum := by
      have h1 : 0 ≤ l1.sum := List.sum_nonneg fun x hx => hnn x (by simp [hsplit, hx])
      have h2 : 0 ≤ l2.sum := List.sum_nonneg fun x hx => hnn x (by simp [hsplit, hx])
      rw [hsplit]
      simp only [List.sum_append, List.sum_cons]
      omega
    have hrv0 : (0 : Int) ≤ (env.rand_value : Int) % env.node_weights.sum :=
      Int.emod_nonneg _ (by omega)
    have hrvlt : (env.rand_value : Int) % env.node_weights.sum < env.node_weights.sum :=
      Int.emod_lt_of_pos _ htot
    have hsome := weighted_scan_isSome env.node_weights
      ((env.rand_value : Int) % env.node_weights.sum) 0 0 hrv0 (by omega)
    obtain ⟨j, hj⟩ := Option.isSome_iff_exists.mp hsome
    have hspec := weighted_scan_some_pos env.node_weights
      ((env.rand_value : Int) % env.node_weights.sum) 0 0 j hnn hrv0 hj
    obtain ⟨-, w', hw', hw'pos⟩ := hspec
    simp only [Nat.sub_zero] at hw'
    have hsel : ConfigStrategy.select_best_node
        ConfigStrategy.numa_config_strategy_type_t.weighted env size = j := by
      simp [ConfigStrategy.select_best_node, if_pos htot, hj]
    rw [hsel]
    intro hji
    subst hji
    rw [hw'] at hzero
    cases hzero
    omega
  · intro hall
    have htot : env.node_weights.sum = 0 := List.sum_eq_zero hall
    simp [ConfigStrategy.select_best_node, htot]

/-- C8 witness: with weights `[0, 100]` node 0 (weight zero) is not
selected, at a concrete random draw. -/
theorem C8_weighted_excludes_zero_weight_witness :
    (∀ w ∈ [(0 : Int), 100], 0 ≤ w) ∧
    ConfigStrategy.select_best_node
        ConfigStrategy.numa_config_strategy_type_t.weighted
        ⟨[0, 100], 0, [], 5, 0⟩ 64 ≠ 0 :=
  ⟨by decide,
    (C8_weighted_excludes_zero_weight ⟨[0, 100], 0, [], 5, 0⟩ 64 (by decide)).1
      (by decide) 0 (by decide)⟩

/-! ### Claim C1 — infrastructure: release paths as identifier erasure -/

theorem erase_list_append (a b : List Nat) :
    ∀ s, Migrate.erase_list (a ++ b) s
      = Migrate.erase_list b (Migrate.erase_list a s) := by
  induction a with
  | nil => intro s; rfl
  | cons x rest ih =>
    intro s
    simp only [List.cons_append, Migrate.erase_list]
    exact ih _

theorem erase_list_ctr (l : List Nat) :
    ∀ s, (Migrate.erase_list l s).ctr = s.ctr := by
  induction l with
  | nil => intro s; rfl
  | cons x rest ih =>
    intro s
    simp only [Migrate.erase_list]
    rw [ih]
    rfl

theorem erase_list_spec (l : List Nat) :
    ∀ (s : Migrate.AllocState) (B : Finset Nat),
      l.Nodup → (∀ x ∈ l, x ∉ B) → s.live = l.toFinset ∪ B →
      (Migrate.erase_list l s).live = B := by
  induction l with
  | nil =>
    intro s B _ _ h
    simpa using h
  | cons x rest ih =>
    intro s B hnd hdisj hlive
    have hx_rest : x ∉ rest := (List.nodup_cons.mp hnd).1
    have hx_B : x ∉ B := hdisj x (by simp)
    simp only [Migrate.erase_list]
    apply ih _ _ (List.nodup_cons.mp hnd).2 (fun y hy => hdisj y (by simp [hy]))
    show s.live.erase x = rest.toFinset ∪ B
    rw [hlive, List.toFinset_cons, Finset.erase_union_distrib,
      Finset.erase_insert (by simpa using hx_rest), Finset.erase_eq_of_not_mem hx_B]

theorem entriesOwned_append (fk fv : Bool) (a b : List (Nat × Option Nat)) :
    Migrate.entriesOwned fk fv (a ++ b)
      = Migrate.entriesOwned fk fv a ++ Migrate.entriesOwned fk fv b := by
  simp [Migrate.entriesOwned]

theorem entriesOwned_cons (fk fv : Bool) (kv : Nat × Option Nat)
    (rest : List (Nat × Option Nat)) :
    Migrate.entriesOwned fk fv (kv :: rest)
      = ((if fk then [kv.1] else []) ++
          (match kv.2 with
           | some v => if fv then [v] else []
           | none => [])) ++ Migrate.entriesOwned fk fv rest := by
  simp [Migrate.entriesOwned]

theorem free_entries_eq (fk fv : Bool) (entries : List (Nat × Option Nat)) :
    ∀ s, Migrate.free_entries fk fv entries s
      = Migrate.erase_list (Migrate.entriesOwned fk fv entries) s := by
  induction entries with
  | nil => intro s; rfl
  | cons kv rest ih =>
    intro s
    obtain ⟨k, v?⟩ := kv
    rw [entriesOwned_cons, erase_list_append, erase_list_append]
    cases v? with
    | none =>
      cases fk <;> simp [Migrate.free_entries, Migrate.erase_list, ih]
    | some v =>
      cases fk <;> cases fv <;> simp [Migrate.free_entries, Migrate.erase_list, ih]

theorem dict_release_eq (fk fv : Bool) (d : Migrate.DictM) (s : Migrate.AllocState) :
    Migrate.dict_release fk fv d s
      = Migrate.erase_list (Migrate.dictOwned fk fv d) s := by
  simp only [Migrate.dict_release, Migrate.dictOwned]
  rw [erase_list_append, free_entries_eq]
  cases d.table <;> simp [Migrate.erase_list, erase_list_append]

theorem qlOwned_cons (nd : Migrate.QlNode) (rest : List Migrate.QlNode) :
    Migrate.qlOwned (nd :: rest) = [nd.zl, nd.nodePtr] ++ Migrate.qlOwned rest := by
  simp [Migrate.qlOwned]

theorem ql_nodes_free_eq (nodes : List Migrate.QlNode) :
    ∀ s, Migrate.ql_nodes_free nodes s
      = Migrate.erase_list (Migrate.qlOwned nodes) s := by
  induction nodes with
  | nil => intro s; rfl
  | cons nd rest ih =>
    intro s
    rw [qlOwned_cons, erase_list_append]
    simp [Migrate.ql_nodes_free, Migrate.erase_list, ih]

theorem zsl_free_eq (z : Migrate.Zsl) (s : Migrate.AllocState) :
    Migrate.zsl_free z s = Migrate.erase_list (Migrate.zslOwned z) s := by
  simp only [Migrate.zsl_free, Migrate.zslOwned]
  rw [erase_list_append]
  have heles : ∀ (l : List Nat) (t : Migrate.AllocState),
      Migrate.zsl_free_eles l t = Migrate.erase_list l t := by
    intro l
    induction l with
    | nil => intro t; rfl
    | cons e rest ih =>
      intro t
      simp [Migrate.zsl_free_eles, Migrate.erase_list, ih]
  rw [heles]
  rfl

theorem release_owned (owned : List Nat) (c0 : Nat) (B : Finset Nat)
    (s : Migrate.AllocState) (hinv : Migrate.OwnedInv owned c0 B s) :
    (Migrate.erase_list owned s).live = B := by
  obtain ⟨hlive, hnd, hbound, hB, _⟩ := hinv
  refine erase_list_spec owned s B hnd (fun x hx hxB => ?_) hlive
  have h1 := (hbound x hx).1
  have h2 := hB x hxB
  omega

theorem perm_insert2_middle (E tr : List Nat) (f v : Nat) :
    List.Perm ((E ++ [f, v]) ++ tr) (f :: v :: (E ++ tr)) := by
  have h1 : (E ++ [f, v]) ++ tr = E ++ f :: v :: tr := by simp
  rw [h1]
  exact List.Perm.trans List.perm_middle (List.Perm.cons f List.perm_middle)

theorem perm_insert1_middle (E tr : List Nat) (f : Nat) :
    List.Perm ((E ++ [f]) ++ tr) (f :: (E ++ tr)) := by
  have h1 : (E ++ [f]) ++ tr = E ++ f :: tr := by simp
  rw [h1]
  exact List.perm_middle

theorem owned_inv_grow2 (E tr : List Nat) (a b c0 : Nat) (B : Finset Nat)
    (s s' : Migrate.AllocState)
    (hinv : Migrate.OwnedInv (E ++ tr) c0 B s)
    (hab : a ≠ b) (hgea : c0 ≤ a) (hgeb : c0 ≤ b)
    (hlta : a < s'.ctr) (hltb : b < s'.ctr) (hctr : s.ctr ≤ s'.ctr)
    (hanotold : a ∉ E ++ tr) (hbnotold : b ∉ E ++ tr)
    (hlive' : s'.live = insert a (insert b s.live)) :
    Migrate.OwnedInv ((E ++ [a, b]) ++ tr) c0 B s' := by
  obtain ⟨hlive, hnd, hbound, hB, hc0⟩ := hinv
  have hperm := perm_insert2_middle E tr a b
  refine ⟨?_, ?_, ?_, hB, by omega⟩
  · rw [List.toFinset_eq_of_perm _ _ hperm, List.toFinset_cons, List.toFinset_cons,
      Finset.insert_union, Finset.insert_union, hlive', hlive]
  · rw [List.Perm.nodup_iff hperm, List.nodup_cons, List.nodup_cons]
    refine ⟨?_, hbnotold, hnd⟩
    simp only [List.mem_cons]
    rintro (h | h)
    · exact hab h
    · exact hanotold h
  · intro x hx
    have hx' := (List.Perm.mem_iff hperm).mp hx
    simp only [List.mem_cons] at hx'
    rcases hx' with h | h | h
    · subst h; exact ⟨hgea, hlta⟩
    · subst h; exact ⟨hgeb, hltb⟩
    · have := hbound x h
      exact ⟨this.1, by omega⟩

theorem owned_inv_grow1 (E tr : List Nat) (a c0 : Nat) (B : Finset Nat)
    (s s' : Migrate.AllocState)
    (hinv : Migrate.OwnedInv (E ++ tr) c0 B s)
    (hgea : c0 ≤ a) (hlta : a < s'.ctr) (hctr : s.ctr ≤ s'.ctr)
    (hanotold : a ∉ E ++ tr)
    (hlive' : s'.live = insert a s.live) :
    Migrate.OwnedInv ((E ++ [a]) ++ tr) c0 B s' := by
  obtain ⟨hlive, hnd, hbound, hB, hc0⟩ := hinv
  have hperm := perm_insert1_middle E tr a
  refine ⟨?_, ?_, ?_, hB, by omega⟩
  · rw [List.toFinset_eq_of_perm _ _ hperm, List.toFinset_cons,
      Finset.insert_union, hlive', hlive]
  · rw [List.Perm.nodup_iff hperm, List.nodup_cons]
    exact ⟨hanotold, hnd⟩
  · intro x hx
    have hx' := (List.Perm.mem_iff hperm).mp hx
    simp only [List.mem_cons] at hx'
    rcases hx' with h | h
    · subst h; exact ⟨hgea, hlta⟩
    · have := hbound x h
      exact ⟨this.1, by omega⟩

theorem migrate_hash_entries_spec (ok : Nat → Bool) (entries : List (Nat × Option Nat)) :
    ∀ (nd : Migrate.DictM) (s : Migrate.AllocState) (c0 : Nat) (B : Finset Nat),
      Migrate.OwnedInv (Migrate.dictOwned true true nd) c0 B s →
      ((Migrate.migrate_hash_entries ok entries nd s).1 = none →
        (Migrate.migrate_hash_entries ok entries nd s).2.live = B) ∧
      (∀ nd', (Migrate.migrate_hash_entries ok entries nd s).1 = some nd' →
        Migrate.OwnedInv (Migrate.dictOwned true true nd') c0 B
          (Migrate.migrate_hash_entries ok entries nd s).2) := by
  induction entries with
  | nil =>
    intro nd s c0 B hinv
    constructor
    · intro h
      exact absurd h (by simp [Migrate.migrate_hash_entries])
    · intro nd' h
      have hnd' : nd = nd' := by simpa [Migrate.migrate_hash_entries] using h
      subst hnd'
      exact hinv
  | cons entry rest ih =>
    intro nd s c0 B hinv
    obtain ⟨hlive, hndp, hbound, hB, hc0⟩ := hinv
    cases h1 : ok s.ctr with
    | false =>
      have hred : Migrate.migrate_hash_entries ok (entry :: rest) nd s
          = (none, Migrate.dict_release true true nd ⟨s.ctr + 1, s.live⟩) := by
        simp [Migrate.migrate_hash_entries, Migrate.zalloc, h1]
      rw [hred]
      refine ⟨fun _ => ?_, fun nd' h => by cases h⟩
      rw [dict_release_eq]
      refine release_owned _ c0 B _
        ⟨hlive, hndp, fun x hx => ⟨(hbound x hx).1,
          show x < s.ctr + 1 by have := (hbound x hx).2; omega⟩, hB,
          show c0 ≤ s.ctr + 1 by omega⟩
    | true =>
      have hctr_not : s.ctr ∉ s.live := by
        rw [hlive]
        simp only [Finset.mem_union, List.mem_toFinset]
        rintro (hx | hx)
        · have := (hbound _ hx).2; omega
        · have := hB _ hx; omega
      cases h2 : ok (s.ctr + 1) with
      | false =>
        have hred : Migrate.migrate_hash_entries ok (entry :: rest) nd s
            = (none, Migrate.dict_release true true nd
                (Migrate.zfree s.ctr ⟨s.ctr + 2, insert s.ctr s.live⟩)) := by
          simp [Migrate.migrate_hash_entries, Migrate.zalloc, h1, h2]
        have hzf : Migrate.zfree s.ctr ⟨s.ctr + 2, insert s.ctr s.live⟩
            = ⟨s.ctr + 2, s.live⟩ := by
          simp [Migrate.zfree, Finset.erase_insert hctr_not]
        rw [hred, hzf]
        refine ⟨fun _ => ?_, fun nd' h => by cases h⟩
        rw [dict_release_eq]
        refine release_owned _ c0 B _
          ⟨hlive, hndp, fun x hx => ⟨(hbound x hx).1,
            show x < s.ctr + 2 by have := (hbound x hx).2; omega⟩, hB,
            show c0 ≤ s.ctr + 2 by omega⟩
      | true =>
        have hred : Migrate.migrate_hash_entries ok (entry :: rest) nd s
            = Migrate.migrate_hash_entries ok rest
                { nd with entries := nd.entries ++ [(s.ctr, some (s.ctr + 1))] }
                ⟨s.ctr + 2, insert (s.ctr + 1) (insert s.ctr s.live)⟩ := by
          simp [Migrate.migrate_hash_entries, Migrate.zalloc, h1, h2]
        rw [hred]
        apply ih
        have howned : Migrate.dictOwned true true
            { nd with entries := nd.entries ++ [(s.ctr, some (s.ctr + 1))] }
            = (Migrate.entriesOwned true true nd.entries ++ [s.ctr, s.ctr + 1]) ++
                ((match nd.table with | some t => [t] | none => []) ++ [nd.root]) := by
          simp [Migrate.dictOwned, entriesOwned_append, Migrate.entriesOwned]
        rw [howned]
        refine owned_inv_grow2 _ _ _ _ c0 B s _
          ⟨hlive, hndp, hbound, hB, hc0⟩ (by omega) hc0 (by omega)
          (show s.ctr < s.ctr + 2 by omega) (show s.ctr + 1 < s.ctr + 2 by omega)
          (show s.ctr ≤ s.ctr + 2 by omega) ?_ ?_ ?_
        · intro hx
          have := (hbound _ hx).2
          omega
        · intro hx
          have := (hbound _ hx).2
          omega
        · exact Finset.Insert.comm _ _ _

theorem qlOwned_append (a b : List Migrate.QlNode) :
    Migrate.qlOwned (a ++ b) = Migrate.qlOwned a ++ Migrate.qlOwned b := by
  simp [Migrate.qlOwned]

theorem migrate_list_nodes_spec (ok : Nat → Bool) (newRoot : Nat)
    (olds : List Migrate.QlNode) :
    ∀ (built : List Migrate.QlNode) (s : Migrate.AllocState) (c0 : Nat)
      (B : Finset Nat),
      Migrate.OwnedInv (Migrate.qlOwned built ++ [newRoot]) c0 B s →
      ((Migrate.migrate_list_nodes ok newRoot olds built s).1 = none →
        (Migrate.migrate_list_nodes ok newRoot olds built s).2.live = B) ∧
      (∀ built', (Migrate.migrate_list_nodes ok newRoot olds built s).1 = some built' →
        Migrate.OwnedInv (Migrate.qlOwned built' ++ [newRoot]) c0 B
          (Migrate.migrate_list_nodes ok newRoot olds built s).2) := by
  induction olds with
  | nil =>
    intro built s c0 B hinv
    constructor
    · intro h
      exact absurd h (by simp [Migrate.migrate_list_nodes])
    · intro built' h
      have hb : built = built' := by simpa [Migrate.migrate_list_nodes] using h
      subst hb
      exact hinv
  | cons old rest ih =>
    intro built s c0 B hinv
    obtain ⟨hlive, hndp, hbound, hB, hc0⟩ := hinv
    have hrelease : ∀ (t : Migrate.AllocState),
        Migrate.zfree newRoot (Migrate.ql_nodes_free built t)
          = Migrate.erase_list (Migrate.qlOwned built ++ [newRoot]) t := by
      intro t
      rw [erase_list_append, ql_nodes_free_eq]
      rfl
    cases h1 : ok s.ctr with
    | false =>
      have hred : Migrate.migrate_list_nodes ok newRoot (old :: rest) built s
          = (none, Migrate.zfree newRoot
              (Migrate.ql_nodes_free built ⟨s.ctr + 1, s.live⟩)) := by
        simp [Migrate.migrate_list_nodes, Migrate.zalloc, h1]
      rw [hred, hrelease]
      refine ⟨fun _ => ?_, fun built' h => by cases h⟩
      refine release_owned _ c0 B _
        ⟨hlive, hndp, fun x hx => ⟨(hbound x hx).1,
          show x < s.ctr + 1 by have := (hbound x hx).2; omega⟩, hB,
          show c0 ≤ s.ctr + 1 by omega⟩
    | true =>
      have hctr_not : s.ctr ∉ s.live := by
        rw [hlive]
        simp only [Finset.mem_union, List.mem_toFinset]
        rintro (hx | hx)
        · have := (hbound _ hx).2; omega
        · have := hB _ hx; omega
      cases h2 : ok (s.ctr + 1) with
      | false =>
        have hred : Migrate.migrate_list_nodes ok newRoot (old :: rest) built s
            = (none, Migrate.zfree newRoot (Migrate.ql_nodes_free built
                (Migrate.zfree s.ctr ⟨s.ctr + 2, insert s.ctr s.live⟩))) := by
          simp [Migrate.migrate_list_nodes, Migrate.zalloc, h1, h2]
        have hzf : Migrate.zfree s.ctr ⟨s.ctr + 2, insert s.ctr s.live⟩
            = ⟨s.ctr + 2, s.live⟩ := by
          simp [Migrate.zfree, Finset.erase_insert hctr_not]
        rw [hred, hzf, hrelease]
        refine ⟨fun _ => ?_, fun built' h => by cases h⟩
        refine release_owned _ c0 B _
          ⟨hlive, hndp, fun x hx => ⟨(hbound x hx).1,
            show x < s.ctr + 2 by have := (hbound x hx).2; omega⟩, hB,
            show c0 ≤ s.ctr + 2 by omega⟩
      | true =>
        have hred : Migrate.migrate_list_nodes ok newRoot (old :: rest) built s
            = Migrate.migrate_list_nodes ok newRoot rest
                (built ++ [⟨s.ctr, s.ctr + 1⟩])
                ⟨s.ctr + 2, insert (s.ctr + 1) (insert s.ctr s.live)⟩ := by
          simp [Migrate.migrate_list_nodes, Migrate.zalloc, h1, h2]
        rw [hred]
        apply ih
        have howned : Migrate.qlOwned (built ++ [⟨s.ctr, s.ctr + 1⟩]) ++ [newRoot]
            = (Migrate.qlOwned built ++ [s.ctr + 1, s.ctr]) ++ [newRoot] := by
          simp [qlOwned_append, Migrate.qlOwned]
        rw [howned]
        refine owned_inv_grow2 _ _ _ _ c0 B s _
          ⟨hlive, hndp, hbound, hB, hc0⟩ (by omega) (by omega) hc0
          (show s.ctr + 1 < s.ctr + 2 by omega) (show s.ctr < s.ctr + 2 by omega)
          (show s.ctr ≤ s.ctr + 2 by omega) ?_ ?_ ?_
        · intro hx
          have := (hbound _ hx).2
          omega
        · intro hx
          have := (hbound _ hx).2
          omega
        · rfl

theorem migrate_set_entries_spec (ok : Nat → Bool) (entries : List (Nat × Option Nat)) :
    ∀ (nd : Migrate.DictM) (s : Migrate.AllocState) (c0 : Nat) (B : Finset Nat),
      Migrate.OwnedInv (Migrate.dictOwned true false nd) c0 B s →
      ((Migrate.migrate_set_entries ok entries nd s).1 = none →
        (Migrate.migrate_set_entries ok entries nd s).2.live = B) ∧
      (∀ nd', (Migrate.migrate_set_entries ok entries nd s).1 = some nd' →
        Migrate.OwnedInv (Migrate.dictOwned true false nd') c0 B
          (Migrate.migrate_set_entries ok entries nd s).2) := by
  induction entries with
  | nil =>
    intro nd s c0 B hinv
    constructor
    · intro h
      exact absurd h (by simp [Migrate.migrate_set_entries])
    · intro nd' h
      have hnd' : nd = nd' := by simpa [Migrate.migrate_set_entries] using h
      subst hnd'
      exact hinv
  | cons entry rest ih =>
    intro nd s c0 B hinv
    obtain ⟨hlive, hndp, hbound, hB, hc0⟩ := hinv
    cases h1 : ok s.ctr with
    | false =>
      have hred : Migrate.migrate_set_entries ok (entry :: rest) nd s
          = (none, Migrate.dict_release true false nd ⟨s.ctr + 1, s.live⟩) := by
        simp [Migrate.migrate_set_entries, Migrate.zalloc, h1]
      rw [hred]
      refine ⟨fun _ => ?_, fun nd' h => by cases h⟩
      rw [dict_release_eq]
      refine release_owned _ c0 B _
        ⟨hlive, hndp, fun x hx => ⟨(hbound x hx).1,
          show x < s.ctr + 1 by have := (hbound x hx).2; omega⟩, hB,
          show c0 ≤ s.ctr + 1 by omega⟩
    | true =>
      have hred : Migrate.migrate_set_entries ok (entry :: rest) nd s
          = Migrate.migrate_set_entries ok rest
              { nd with entries := nd.entries ++ [(s.ctr, none)] }
              ⟨s.ctr + 1, insert s.ctr s.live⟩ := by
        simp [Migrate.migrate_set_entries, Migrate.zalloc, h1]
      rw [hred]
      apply ih
      have howned : Migrate.dictOwned true false
          { nd with entries := nd.entries ++ [(s.ctr, none)] }
          = (Migrate.entriesOwned true false nd.entries ++ [s.ctr]) ++
              ((match nd.table with | some t => [t] | none => []) ++ [nd.root]) := by
        simp [Migrate.dictOwned, entriesOwned_append, Migrate.entriesOwned]
      rw [howned]
      refine owned_inv_grow1 _ _ _ c0 B s _
        ⟨hlive, hndp, hbound, hB, hc0⟩ hc0
        (show s.ctr < s.ctr + 1 by omega) (show s.ctr ≤ s.ctr + 1 by omega) ?_ rfl
      intro hx
      have := (hbound _ hx).2
      omega

theorem zset_release_eq (nz : Migrate.ZsetStruct) (s : Migrate.AllocState) :
    Migrate.zfree nz.zsRoot (Migrate.zsl_free nz.zsl
        (Migrate.dict_release false false ⟨nz.dictRoot, nz.dictTable, []⟩ s))
      = Migrate.erase_list (Migrate.zsetOwned nz) s := by
  simp only [Migrate.zsetOwned]
  rw [erase_list_append, erase_list_append, dict_release_eq, zsl_free_eq]
  rfl

theorem migrate_zset_elements_spec (ok : Nat → Bool) (eles : List Nat) :
    ∀ (nz : Migrate.ZsetStruct) (s : Migrate.AllocState) (c0 : Nat) (B : Finset Nat),
      Migrate.OwnedInv (Migrate.zsetOwned nz) c0 B s →
      ((Migrate.migrate_zset_elements ok eles nz s).1 = none →
        (Migrate.migrate_zset_elements ok eles nz s).2.live = B) ∧
      (∀ nz', (Migrate.migrate_zset_elements ok eles nz s).1 = some nz' →
        Migrate.OwnedInv (Migrate.zsetOwned nz') c0 B
          (Migrate.migrate_zset_elements ok eles nz s).2) := by
  induction eles with
  | nil =>
    intro nz s c0 B hinv
    constructor
    · intro h
      exact absurd h (by simp [Migrate.migrate_zset_elements])
    · intro nz' h
      have hnz' : nz = nz' := by simpa [Migrate.migrate_zset_elements] using h
      subst hnz'
      exact hinv
  | cons e rest ih =>
    intro nz s c0 B hinv
    obtain ⟨hlive, hndp, hbound, hB, hc0⟩ := hinv
    cases h1 : ok s.ctr with
    | false =>
      have hred : Migrate.migrate_zset_elements ok (e :: rest) nz s
          = (none, Migrate.zfree nz.zsRoot (Migrate.zsl_free nz.zsl
              (Migrate.dict_release false false ⟨nz.dictRoot, nz.dictTable, []⟩
                ⟨s.ctr + 1, s.live⟩))) := by
        simp [Migrate.migrate_zset_elements, Migrate.zalloc, h1]
      rw [hred, zset_release_eq]
      refine ⟨fun _ => ?_, fun nz' h => by cases h⟩
      refine release_owned _ c0 B _
        ⟨hlive, hndp, fun x hx => ⟨(hbound x hx).1,
          show x < s.ctr + 1 by have := (hbound x hx).2; omega⟩, hB,
          show c0 ≤ s.ctr + 1 by omega⟩
    | true =>
      have hred : Migrate.migrate_zset_elements ok (e :: rest) nz s
          = Migrate.migrate_zset_elements ok rest
              { nz with zsl := { nz.zsl with eles := nz.zsl.eles ++ [s.ctr] } }
              ⟨s.ctr + 1, insert s.ctr s.live⟩ := by
        simp [Migrate.migrate_zset_elements, Migrate.zalloc, h1]
      rw [hred]
      apply ih
      have hshape : Migrate.zsetOwned nz
          = ((Migrate.dictOwned false false ⟨nz.dictRoot, nz.dictTable, []⟩ ++
              nz.zsl.eles) ++ ([nz.zsl.zslRoot] ++ [nz.zsRoot])) := by
        simp [Migrate.zsetOwned, Migrate.zslOwned]
      have howned : Migrate.zsetOwned
          { nz with zsl := { nz.zsl with eles := nz.zsl.eles ++ [s.ctr] } }
          = ((Migrate.dictOwned false false ⟨nz.dictRoot, nz.dictTable, []⟩ ++
              nz.zsl.eles) ++ [s.ctr]) ++ ([nz.zsl.zslRoot] ++ [nz.zsRoot]) := by
        simp [Migrate.zsetOwned, Migrate.zslOwned]
      rw [howned]
      rw [hshape] at hlive hndp hbound
      refine owned_inv_grow1 _ _ _ c0 B s _
        ⟨hlive, hndp, hbound, hB, hc0⟩ hc0
        (show s.ctr < s.ctr + 1 by omega) (show s.ctr ≤ s.ctr + 1 by omega) ?_ rfl
      intro hx
      have := (hbound _ hx).2
      omega

/-! ### Claim C2 — current node after a successful migration -/

/-- C2 counterexample: a key that is present in the store but has no
hot-key metadata record (it was never routed through
`numa_record_key_access`).  `numa_migrate_single_key` returns OK — here
for an integer-encoded string, a no-op migration — but
`numa_get_key_current_node` returns the no-record sentinel `-1`, not the
target node `1`. -/
theorem C2_counterexample_no_metadata_record :
    (let ctx0 : Migrate.KmCtx := ⟨[], ⟨0, 0, 0, 0⟩⟩
     let db0 : Migrate.DbState :=
       ⟨[(1, Migrate.RVal.stringVal Migrate.StringEnc.intEncoded)]⟩
     let r := Migrate.numa_migrate_single_key (fun _ => true) ctx0 db0 1 1 1 0 ⟨0, ∅⟩
     r.1 = Migrate.NUMA_KEY_MIGRATE_OK ∧
       Migrate.numa_get_key_current_node r.2.1 1 = -1 ∧ (-1 : Int) ≠ 1) := by
  decide

/-- C2 amended: after `numa_migrate_single_key` returns OK, the queried
current node of the key equals the target node whenever a hot-key
metadata record for the key existed before the call; when no record
exists the query returns the sentinel `-1`. -/
theorem C2_after_ok_current_node_if_recorded :
    ∀ (ok : Nat → Bool) (ctx : Migrate.KmCtx) (db : Migrate.DbState) (key : Nat)
      (tn : Int) (mn el : Nat) (s : Migrate.AllocState) (val : Migrate.RVal),
      alookup db.dict key = some val →
      (Migrate.numa_migrate_single_key ok ctx db key tn mn el s).1
          = Migrate.NUMA_KEY_MIGRATE_OK →
      Migrate.numa_get_key_current_node
          (Migrate.numa_migrate_single_key ok ctx db key tn mn el s).2.1 key
        = if (alookup ctx.key_metadata key).isSome then tn else -1 := by
  intro ok ctx db key tn mn el s val hdb h
  by_cases hv : tn < 0 ∨ (mn : Int) < tn
  · simp only [Migrate.numa_migrate_single_key, if_pos hv] at h
    have h1 : Migrate.NUMA_KEY_MIGRATE_EINVAL = Migrate.NUMA_KEY_MIGRATE_OK := h
    exact absurd h1 (by decide)
  · simp only [Migrate.numa_migrate_single_key, if_neg hv, hdb] at h ⊢
    by_cases hr : (Migrate.migrate_by_type ok val s).1 = Migrate.NUMA_KEY_MIGRATE_OK
    · simp only [if_pos hr]
      simp [Migrate.numa_get_key_current_node, alookup_aupdate_self]
      cases hk : alookup ctx.key_metadata key <;> simp
    · simp only [if_neg hr] at h
      exact absurd h hr

/-- C2 witness: the amended statement at a key that does carry a metadata
record — the queried node is the target node 1. -/
theorem C2_after_ok_current_node_if_recorded_witness :
    Migrate.numa_get_key_current_node
        (Migrate.numa_migrate_single_key (fun _ => true)
          ⟨[(1, ⟨0, 3, 0, 0, 1⟩)], ⟨0, 0, 0, 0⟩⟩
          ⟨[(1, Migrate.RVal.stringVal Migrate.StringEnc.intEncoded)]⟩
          1 1 1 0 ⟨0, ∅⟩).2.1 1
      = if (alookup ([(1, (⟨0, 3, 0, 0, 1⟩ : Migrate.key_numa_metadata_t))]) 1).isSome
          then 1 else -1 :=
  C2_after_ok_current_node_if_recorded (fun _ => true)
    ⟨[(1, ⟨0, 3, 0, 0, 1⟩)], ⟨0, 0, 0, 0⟩⟩
    ⟨[(1, Migrate.RVal.stringVal Migrate.StringEnc.intEncoded)]⟩
    1 1 1 0 ⟨0, ∅⟩ (Migrate.RVal.stringVal Migrate.StringEnc.intEncoded)
    (by decide) (by decide)

/-! ### Claim C10 — unknown strategy names parse to local-first, command replies OK -/

theorem parse_scan_eq_none (name : String) (l : List String) (i : Nat)
    (h : ∀ n ∈ l, ConfigStrategy.strcasecmp_eq name n = false) :
    ConfigStrategy.parse_scan name l i = none := by
  induction l generalizing i with
  | nil => rfl
  | cons hd tl ih =>
    have hhd := h hd (by simp)
    simp only [ConfigStrategy.parse_scan, hhd, Bool.false_eq_true, if_false]
    exact ih (i + 1) fun n hn => h n (by simp [hn])

/-- C10: any input matching none of the six registered strategy names
(case-insensitively) parses to the local-first strategy, so
`NUMACONFIG SET strategy <unknown>` on an initialised system switches the
placement engine to local-first and replies `OK`. -/
theorem C10_unknown_strategy_parses_local_first :
    ∀ (st : ConfigStrategy.RuntimeState) (value : String),
      st.initialized = true →
      (∀ n ∈ ConfigStrategy.strategy_names,
        ConfigStrategy.strcasecmp_eq value n = false) →
      ConfigStrategy.parse_strategy_name value
          = ConfigStrategy.numa_config_strategy_type_t.local_first ∧
      (ConfigStrategy.numaconfig_set_strategy st value).1 = "OK" ∧
      (ConfigStrategy.numaconfig_set_strategy st value).2.strategy_type
          = ConfigStrategy.numa_config_strategy_type_t.local_first := by
  intro st value hinit h
  have hparse : ConfigStrategy.parse_strategy_name value
      = ConfigStrategy.numa_config_strategy_type_t.local_first := by
    simp [ConfigStrategy.parse_strategy_name, parse_scan_eq_none value _ 0 h]
  refine ⟨hparse, ?_, ?_⟩ <;>
    simp [ConfigStrategy.numaconfig_set_strategy, hparse,
      ConfigStrategy.numa_config_set_strategy, hinit, ConfigStrategy.C_OK,
      ConfigStrategy.C_ERR]

/-- C10 witness: the unregistered name `best_fit` at a concrete
initialised state. -/
theorem C10_unknown_strategy_parses_local_first_witness :
    (ConfigStrategy.numaconfig_set_strategy
        ⟨true, ConfigStrategy.numa_config_strategy_type_t.interleave,
          ConfigStrategy.numa_config_strategy_type_t.interleave⟩ "best_fit").1
      = "OK" :=
  (C10_unknown_strategy_parses_local_first
    ⟨true, ConfigStrategy.numa_config_strategy_type_t.interleave,
      ConfigStrategy.numa_config_strategy_type_t.interleave⟩ "best_fit" rfl
    (by decide)).2.1

/-! ### Claim C1 — per-kind migration failure unwinds fully -/

theorem migrate_string_type_oom (ok : Nat → Bool) (e : Migrate.StringEnc)
    (s : Migrate.AllocState) :
    ((Migrate.migrate_string_type ok e s).1 = Migrate.NUMA_KEY_MIGRATE_OK ∨
      (Migrate.migrate_string_type ok e s).1 = Migrate.NUMA_KEY_MIGRATE_ENOMEM) ∧
    ((Migrate.migrate_string_type ok e s).1 = Migrate.NUMA_KEY_MIGRATE_ENOMEM →
      (Migrate.migrate_string_type ok e s).2.1 = e ∧
        (Migrate.migrate_string_type ok e s).2.2.live = s.live) := by
  cases e with
  | intEncoded =>
    refine ⟨Or.inl rfl, fun h => ?_⟩
    exact absurd (show Migrate.NUMA_KEY_MIGRATE_OK
      = Migrate.NUMA_KEY_MIGRATE_ENOMEM from h) (by decide)
  | rawStr old =>
    cases h1 : ok s.ctr with
    | false =>
      have hred : Migrate.migrate_string_type ok (.rawStr old) s
          = (Migrate.NUMA_KEY_MIGRATE_ENOMEM, .rawStr old, ⟨s.ctr + 1, s.live⟩) := by
        simp [Migrate.migrate_string_type, Migrate.zalloc, h1]
      rw [hred]
      exact ⟨Or.inr rfl, fun _ => ⟨rfl, rfl⟩⟩
    | true =>
      have hred : Migrate.migrate_string_type ok (.rawStr old) s
          = (Migrate.NUMA_KEY_MIGRATE_OK, .rawStr s.ctr,
              Migrate.zfree old ⟨s.ctr + 1, insert s.ctr s.live⟩) := by
        simp [Migrate.migrate_string_type, Migrate.zalloc, h1]
      rw [hred]
      refine ⟨Or.inl rfl, fun h => ?_⟩
      exact absurd (show Migrate.NUMA_KEY_MIGRATE_OK
        = Migrate.NUMA_KEY_MIGRATE_ENOMEM from h) (by decide)

theorem migrate_hash_type_oom (ok : Nat → Bool) (e : Migrate.HashEnc)
    (s : Migrate.AllocState) (hf : Migrate.Fresh s) :
    (e ≠ Migrate.HashEnc.unknownEnc →
      ((Migrate.migrate_hash_type ok e s).1 = Migrate.NUMA_KEY_MIGRATE_OK ∨
        (Migrate.migrate_hash_type ok e s).1 = Migrate.NUMA_KEY_MIGRATE_ENOMEM)) ∧
    ((Migrate.migrate_hash_type ok e s).1 = Migrate.NUMA_KEY_MIGRATE_ENOMEM →
      (Migrate.migrate_hash_type ok e s).2.1 = e ∧
        (Migrate.migrate_hash_type ok e s).2.2.live = s.live) := by
  cases e with
  | unknownEnc =>
    refine ⟨fun hne => absurd rfl hne, fun h => ?_⟩
    exact absurd (show Migrate.NUMA_KEY_MIGRATE_ETYPE
      = Migrate.NUMA_KEY_MIGRATE_ENOMEM from h) (by decide)
  | ziplist old =>
    cases h1 : ok s.ctr with
    | false =>
      have hred : Migrate.migrate_hash_type ok (.ziplist old) s
          = (Migrate.NUMA_KEY_MIGRATE_ENOMEM, .ziplist old, ⟨s.ctr + 1, s.live⟩) := by
        simp [Migrate.migrate_hash_type, Migrate.zalloc, h1]
      rw [hred]
      exact ⟨fun _ => Or.inr rfl, fun _ => ⟨rfl, rfl⟩⟩
    | true =>
      have hred : Migrate.migrate_hash_type ok (.ziplist old) s
          = (Migrate.NUMA_KEY_MIGRATE_OK, .ziplist s.ctr,
              Migrate.zfree old ⟨s.ctr + 1, insert s.ctr s.live⟩) := by
        simp [Migrate.migrate_hash_type, Migrate.zalloc, h1]
      rw [hred]
      refine ⟨fun _ => Or.inl rfl, fun h => ?_⟩
      exact absurd (show Migrate.NUMA_KEY_MIGRATE_OK
        = Migrate.NUMA_KEY_MIGRATE_ENOMEM from h) (by decide)
  | hashtable old =>
    cases h1 : ok s.ctr with
    | false =>
      have hred : Migrate.migrate_hash_type ok (.hashtable old) s
          = (Migrate.NUMA_KEY_MIGRATE_ENOMEM, .hashtable old, ⟨s.ctr + 1, s.live⟩) := by
        simp [Migrate.migrate_hash_type, Migrate.zalloc, h1]
      rw [hred]
      exact ⟨fun _ => Or.inr rfl, fun _ => ⟨rfl, rfl⟩⟩
    | true =>
      have hctr_not : s.ctr ∉ s.live := fun hx => absurd (hf _ hx) (by omega)
      cases h2 : ok (s.ctr + 1) with
      | false =>
        have hred : Migrate.migrate_hash_type ok (.hashtable old) s
            = (Migrate.NUMA_KEY_MIGRATE_ENOMEM, .hashtable old,
                Migrate.dict_release true true ⟨s.ctr, none, []⟩
                  ⟨s.ctr + 2, insert s.ctr s.live⟩) := by
          simp [Migrate.migrate_hash_type, Migrate.zalloc, h1, h2]
        have hrel : Migrate.dict_release true true ⟨s.ctr, none, []⟩
            ⟨s.ctr + 2, insert s.ctr s.live⟩
            = (⟨s.ctr + 2, s.live⟩ : Migrate.AllocState) := by
          rw [dict_release_eq]
          simp [Migrate.dictOwned, Migrate.entriesOwned, Migrate.erase_list,
            Migrate.zfree, Finset.erase_insert hctr_not]
        rw [hred, hrel]
        exact ⟨fun _ => Or.inr rfl, fun _ => ⟨rfl, rfl⟩⟩
      | true =>
        have hinv : Migrate.OwnedInv
            (Migrate.dictOwned true true ⟨s.ctr, some (s.ctr + 1), []⟩)
            s.ctr s.live
            ⟨s.ctr + 2, insert (s.ctr + 1) (insert s.ctr s.live)⟩ := by
          refine ⟨?_, ?_, ?_, hf, show s.ctr ≤ s.ctr + 2 by omega⟩
          · ext x
            simp [Migrate.dictOwned, Migrate.entriesOwned]
          · simp [Migrate.dictOwned, Migrate.entriesOwned]
          · intro x hx
            simp [Migrate.dictOwned, Migrate.entriesOwned] at hx
            show s.ctr ≤ x ∧ x < s.ctr + 2
            rcases hx with h | h <;> omega
        have hspec := migrate_hash_entries_spec ok old.entries
          ⟨s.ctr, some (s.ctr + 1), []⟩
          ⟨s.ctr + 2, insert (s.ctr + 1) (insert s.ctr s.live)⟩ s.ctr s.live hinv
        rcases hloop : Migrate.migrate_hash_entries ok old.entries
            ⟨s.ctr, some (s.ctr + 1), []⟩
            ⟨s.ctr + 2, insert (s.ctr + 1) (insert s.ctr s.live)⟩ with ⟨r3, s3⟩
        rw [hloop] at hspec
        cases r3 with
        | none =>
          have hred : Migrate.migrate_hash_type ok (.hashtable old) s
              = (Migrate.NUMA_KEY_MIGRATE_ENOMEM, .hashtable old, s3) := by
            simp [Migrate.migrate_hash_type, Migrate.zalloc, h1, h2, hloop]
          rw [hred]
          exact ⟨fun _ => Or.inr rfl, fun _ => ⟨rfl, hspec.1 rfl⟩⟩
        | some nd =>
          have hred : Migrate.migrate_hash_type ok (.hashtable old) s
              = (Migrate.NUMA_KEY_MIGRATE_OK, .hashtable nd,
                  Migrate.dict_release true true old s3) := by
            simp [Migrate.migrate_hash_type, Migrate.zalloc, h1, h2, hloop]
          rw [hred]
          refine ⟨fun _ => Or.inl rfl, fun h => ?_⟩
          exact absurd (show Migrate.NUMA_KEY_MIGRATE_OK
            = Migrate.NUMA_KEY_MIGRATE_ENOMEM from h) (by decide)

theorem migrate_list_type_oom (ok : Nat → Bool) (e : Migrate.ListEnc)
    (s : Migrate.AllocState) (hf : Migrate.Fresh s) :
    (e ≠ Migrate.ListEnc.unknownEnc →
      ((Migrate.migrate_list_type ok e s).1 = Migrate.NUMA_KEY_MIGRATE_OK ∨
        (Migrate.migrate_list_type ok e s).1 = Migrate.NUMA_KEY_MIGRATE_ENOMEM)) ∧
    ((Migrate.migrate_list_type ok e s).1 = Migrate.NUMA_KEY_MIGRATE_ENOMEM →
      (Migrate.migrate_list_type ok e s).2.1 = e ∧
        (Migrate.migrate_list_type ok e s).2.2.live = s.live) := by
  cases e with
  | unknownEnc =>
    refine ⟨fun hne => absurd rfl hne, fun h => ?_⟩
    exact absurd (show Migrate.NUMA_KEY_MIGRATE_ETYPE
      = Migrate.NUMA_KEY_MIGRATE_ENOMEM from h) (by decide)
  | quicklist old =>
    cases h1 : ok s.ctr with
    | false =>
      have hred : Migrate.migrate_list_type ok (.quicklist old) s
          = (Migrate.NUMA_KEY_MIGRATE_ENOMEM, .quicklist old, ⟨s.ctr + 1, s.live⟩) := by
        simp [Migrate.migrate_list_type, Migrate.zalloc, h1]
      rw [hred]
      exact ⟨fun _ => Or.inr rfl, fun _ => ⟨rfl, rfl⟩⟩
    | true =>
      have hinv : Migrate.OwnedInv (Migrate.qlOwned [] ++ [s.ctr]) s.ctr s.live
          ⟨s.ctr + 1, insert s.ctr s.live⟩ := by
        refine ⟨?_, ?_, ?_, hf, show s.ctr ≤ s.ctr + 1 by omega⟩
        · ext x
          simp [Migrate.qlOwned]
        · simp [Migrate.qlOwned]
        · intro x hx
          simp [Migrate.qlOwned] at hx
          show s.ctr ≤ x ∧ x < s.ctr + 1
          omega
      have hspec := migrate_list_nodes_spec ok s.ctr old.nodes []
        ⟨s.ctr + 1, insert s.ctr s.live⟩ s.ctr s.live hinv
      rcases hloop : Migrate.migrate_list_nodes ok s.ctr old.nodes []
          ⟨s.ctr + 1, insert s.ctr s.live⟩ with ⟨r2, s2⟩
      rw [hloop] at hspec
      cases r2 with
      | none =>
        have hred : Migrate.migrate_list_type ok (.quicklist old) s
            = (Migrate.NUMA_KEY_MIGRATE_ENOMEM, .quicklist old, s2) := by
          simp [Migrate.migrate_list_type, Migrate.zalloc, h1, hloop]
        rw [hred]
        exact ⟨fun _ => Or.inr rfl, fun _ => ⟨rfl, hspec.1 rfl⟩⟩
      | some built =>
        have hred : Migrate.migrate_list_type ok (.quicklist old) s
            = (Migrate.NUMA_KEY_MIGRATE_OK, .quicklist ⟨s.ctr, built⟩,
                Migrate.zfree old.root (Migrate.ql_nodes_free old.nodes s2)) := by
          simp [Migrate.migrate_list_type, Migrate.zalloc, h1, hloop]
        rw [hred]
        refine ⟨fun _ => Or.inl rfl, fun h => ?_⟩
        exact absurd (show Migrate.NUMA_KEY_MIGRATE_OK
          = Migrate.NUMA_KEY_MIGRATE_ENOMEM from h) (by decide)

theorem migrate_set_type_oom (ok : Nat → Bool) (e : Migrate.SetEnc)
    (s : Migrate.AllocState) (hf : Migrate.Fresh s) :
    (e ≠ Migrate.SetEnc.unknownEnc →
      ((Migrate.migrate_set_type ok e s).1 = Migrate.NUMA_KEY_MIGRATE_OK ∨
        (Migrate.migrate_set_type ok e s).1 = Migrate.NUMA_KEY_MIGRATE_ENOMEM)) ∧
    ((Migrate.migrate_set_type ok e s).1 = Migrate.NUMA_KEY_MIGRATE_ENOMEM →
      (Migrate.migrate_set_type ok e s).2.1 = e ∧
        (Migrate.migrate_set_type ok e s).2.2.live = s.live) := by
  cases e with
  | unknownEnc =>
    refine ⟨fun hne => absurd rfl hne, fun h => ?_⟩
    exact absurd (show Migrate.NUMA_KEY_MIGRATE_ETYPE
      = Migrate.NUMA_KEY_MIGRATE_ENOMEM from h) (by decide)
  | intset old =>
    cases h1 : ok s.ctr with
    | false =>
      have hred : Migrate.migrate_set_type ok (.intset old) s
          = (Migrate.NUMA_KEY_MIGRATE_ENOMEM, .intset old, ⟨s.ctr + 1, s.live⟩) := by
        simp [Migrate.migrate_set_type, Migrate.zalloc, h1]
      rw [hred]
      exact ⟨fun _ => Or.inr rfl, fun _ => ⟨rfl, rfl⟩⟩
    | true =>
      have hred : Migrate.migrate_set_type ok (.intset old) s
          = (Migrate.NUMA_KEY_MIGRATE_OK, .intset s.ctr,
              Migrate.zfree old ⟨s.ctr + 1, insert s.ctr s.live⟩) := by
        simp [Migrate.migrate_set_type, Migrate.zalloc, h1]
      rw [hred]
      refine ⟨fun _ => Or.inl rfl, fun h => ?_⟩
      exact absurd (show Migrate.NUMA_KEY_MIGRATE_OK
        = Migrate.NUMA_KEY_MIGRATE_ENOMEM from h) (by decide)
  | hashtable old =>
    cases h1 : ok s.ctr with
    | false =>
      have hred : Migrate.migrate_set_type ok (.hashtable old) s
          = (Migrate.NUMA_KEY_MIGRATE_ENOMEM, .hashtable old, ⟨s.ctr + 1, s.live⟩) := by
        simp [Migrate.migrate_set_type, Migrate.zalloc, h1]
      rw [hred]
      exact ⟨fun _ => Or.inr rfl, fun _ => ⟨rfl, rfl⟩⟩
    | true =>
      have hctr_not : s.ctr ∉ s.live := fun hx => absurd (hf _ hx) (by omega)
      cases h2 : ok (s.ctr + 1) with
      | false =>
        have hred : Migrate.migrate_set_type ok (.hashtable old) s
            = (Migrate.NUMA_KEY_MIGRATE_ENOMEM, .hashtable old,
                Migrate.dict_release true false ⟨s.ctr, none, []⟩
                  ⟨s.ctr + 2, insert s.ctr s.live⟩) := by
          simp [Migrate.migrate_set_type, Migrate.zalloc, h1, h2]
        have hrel : Migrate.dict_release true false ⟨s.ctr, none, []⟩
            ⟨s.ctr + 2, insert s.ctr s.live⟩
            = (⟨s.ctr + 2, s.live⟩ : Migrate.AllocState) := by
          rw [dict_release_eq]
          simp [Migrate.dictOwned, Migrate.entriesOwned, Migrate.erase_list,
            Migrate.zfree, Finset.erase_insert hctr_not]
        rw [hred, hrel]
        exact ⟨fun _ => Or.inr rfl, fun _ => ⟨rfl, rfl⟩⟩
      | true =>
        have hinv : Migrate.OwnedInv
            (Migrate.dictOwned true false ⟨s.ctr, some (s.ctr + 1), []⟩)
            s.ctr s.live
            ⟨s.ctr + 2, insert (s.ctr + 1) (insert s.ctr s.live)⟩ := by
          refine ⟨?_, ?_, ?_, hf, show s.ctr ≤ s.ctr + 2 by omega⟩
          · ext x
            simp [Migrate.dictOwned, Migrate.entriesOwned]
          · simp [Migrate.dictOwned, Migrate.entriesOwned]
          · intro x hx
            simp [Migrate.dictOwned, Migrate.entriesOwned] at hx
            show s.ctr ≤ x ∧ x < s.ctr + 2
            rcases hx with h | h <;> omega
        have hspec := migrate_set_entries_spec ok old.entries
          ⟨s.ctr, some (s.ctr + 1), []⟩
          ⟨s.ctr + 2, insert (s.ctr + 1) (insert s.ctr s.live)⟩ s.ctr s.live hinv
        rcases hloop : Migrate.migrate_set_entries ok old.entries
            ⟨s.ctr, some (s.ctr + 1), []⟩
            ⟨s.ctr + 2, insert (s.ctr + 1) (insert s.ctr s.live)⟩ with ⟨r3, s3⟩
        rw [hloop] at hspec
        cases r3 with
        | none =>
          have hred : Migrate.migrate_set_type ok (.hashtable old) s
              = (Migrate.NUMA_KEY_MIGRATE_ENOMEM, .hashtable old, s3) := by
            simp [Migrate.migrate_set_type, Migrate.zalloc, h1, h2, hloop]
          rw [hred]
          exact ⟨fun _ => Or.inr rfl, fun _ => ⟨rfl, hspec.1 rfl⟩⟩
        | some nd =>
          have hred : Migrate.migrate_set_type ok (.hashtable old) s
              = (Migrate.NUMA_KEY_MIGRATE_OK, .hashtable nd,
                  Migrate.dict_release true false old s3) := by
            simp [Migrate.migrate_set_type, Migrate.zalloc, h1, h2, hloop]
          rw [hred]
          refine ⟨fun _ => Or.inl rfl, fun h => ?_⟩
          exact absurd (show Migrate.NUMA_KEY_MIGRATE_OK
            = Migrate.NUMA_KEY_MIGRATE_ENOMEM from h) (by decide)

theorem migrate_zset_type_oom (ok : Nat → Bool) (e : Migrate.ZsetEnc)
    (s : Migrate.AllocState) (hf : Migrate.Fresh s) :
    ((Migrate.migrate_zset_type ok e s).1 = Migrate.NUMA_KEY_MIGRATE_OK ∨
      (Migrate.migrate_zset_type ok e s).1 = Migrate.NUMA_KEY_MIGRATE_ENOMEM) ∧
    ((Migrate.migrate_zset_type ok e s).1 = Migrate.NUMA_KEY_MIGRATE_ENOMEM →
      (Migrate.migrate_zset_type ok e s).2.1 = e ∧
        (Migrate.migrate_zset_type ok e s).2.2.live = s.live) := by
  cases e with
  | ziplist old =>
    cases h1 : ok s.ctr with
    | false =>
      have hred : Migrate.migrate_zset_type ok (.ziplist old) s
          = (Migrate.NUMA_KEY_MIGRATE_ENOMEM, .ziplist old, ⟨s.ctr + 1, s.live⟩) := by
        simp [Migrate.migrate_zset_type, Migrate.zalloc, h1]
      rw [hred]
      exact ⟨Or.inr rfl, fun _ => ⟨rfl, rfl⟩⟩
    | true =>
      have hred : Migrate.migrate_zset_type ok (.ziplist old) s
          = (Migrate.NUMA_KEY_MIGRATE_OK, .ziplist s.ctr,
              Migrate.zfree old ⟨s.ctr + 1, insert s.ctr s.live⟩) := by
        simp [Migrate.migrate_zset_type, Migrate.zalloc, h1]
      rw [hred]
      refine ⟨Or.inl rfl, fun h => ?_⟩
      exact absurd (show Migrate.NUMA_KEY_MIGRATE_OK
        = Migrate.NUMA_KEY_MIGRATE_ENOMEM from h) (by decide)
  | skiplist old =>
    cases h1 : ok s.ctr with
    | false =>
      have hred : Migrate.migrate_zset_type ok (.skiplist old) s
          = (Migrate.NUMA_KEY_MIGRATE_ENOMEM, .skiplist old, ⟨s.ctr + 1, s.live⟩) := by
        simp [Migrate.migrate_zset_type, Migrate.zalloc, h1]
      rw [hred]
      exact ⟨Or.inr rfl, fun _ => ⟨rfl, rfl⟩⟩
    | true =>
      have hctr_not : s.ctr ∉ s.live := fun hx => absurd (hf _ hx) (by omega)
      have hnot1 : s.ctr + 1 ∉ insert s.ctr s.live := by
        simp only [Finset.mem_insert]
        rintro (h | h)
        · omega
        · exact absurd (hf _ h) (by omega)
      cases h2 : ok (s.ctr + 1) with
      | false =>
        have hred : Migrate.migrate_zset_type ok (.skiplist old) s
            = (Migrate.NUMA_KEY_MIGRATE_ENOMEM, .skiplist old,
                Migrate.zfree s.ctr ⟨s.ctr + 2, insert s.ctr s.live⟩) := by
          simp [Migrate.migrate_zset_type, Migrate.zalloc, h1, h2]
        have hrel : Migrate.zfree s.ctr ⟨s.ctr + 2, insert s.ctr s.live⟩
            = (⟨s.ctr + 2, s.live⟩ : Migrate.AllocState) := by
          simp [Migrate.zfree, Finset.erase_insert hctr_not]
        rw [hred, hrel]
        exact ⟨Or.inr rfl, fun _ => ⟨rfl, rfl⟩⟩
      | true =>
        have hnot2 : s.ctr + 2 ∉ insert (s.ctr + 1) (insert s.ctr s.live) := by
          simp only [Finset.mem_insert]
          rintro (h | h | h)
          · omega
          · omega
          · exact absurd (hf _ h) (by omega)
        cases h3 : ok (s.ctr + 2) with
        | false =>
          have hred : Migrate.migrate_zset_type ok (.skiplist old) s
              = (Migrate.NUMA_KEY_MIGRATE_ENOMEM, .skiplist old,
                  Migrate.zfree s.ctr (Migrate.zsl_free ⟨s.ctr + 1, []⟩
                    ⟨s.ctr + 3, insert (s.ctr + 1) (insert s.ctr s.live)⟩)) := by
            simp [Migrate.migrate_zset_type, Migrate.zalloc, h1, h2, h3]
          have hrel : Migrate.zfree s.ctr (Migrate.zsl_free ⟨s.ctr + 1, []⟩
              ⟨s.ctr + 3, insert (s.ctr + 1) (insert s.ctr s.live)⟩)
              = (⟨s.ctr + 3, s.live⟩ : Migrate.AllocState) := by
            simp [Migrate.zfree, Migrate.zsl_free, Migrate.zsl_free_eles,
              Finset.erase_insert hnot1, Finset.erase_insert hctr_not]
          rw [hred, hrel]
          exact ⟨Or.inr rfl, fun _ => ⟨rfl, rfl⟩⟩
        | true =>
          have hnot3 : s.ctr + 3
              ∉ insert (s.ctr + 2) (insert (s.ctr + 1) (insert s.ctr s.live)) := by
            simp only [Finset.mem_insert]
            rintro (h | h | h | h)
            · omega
            · omega
            · omega
            · exact absurd (hf _ h) (by omega)
          cases h4 : ok (s.ctr + 3) with
          | false =>
            have hred : Migrate.migrate_zset_type ok (.skiplist old) s
                = (Migrate.NUMA_KEY_MIGRATE_ENOMEM, .skiplist old,
                    Migrate.zfree s.ctr (Migrate.zsl_free ⟨s.ctr + 1, []⟩
                      (Migrate.dict_release false false ⟨s.ctr + 2, none, []⟩
                        ⟨s.ctr + 4, insert (s.ctr + 2)
                          (insert (s.ctr + 1) (insert s.ctr s.live))⟩))) := by
              simp [Migrate.migrate_zset_type, Migrate.zalloc, h1, h2, h3, h4]
            have hrel : Migrate.zfree s.ctr (Migrate.zsl_free ⟨s.ctr + 1, []⟩
                (Migrate.dict_release false false ⟨s.ctr + 2, none, []⟩
                  ⟨s.ctr + 4, insert (s.ctr + 2)
                    (insert (s.ctr + 1) (insert s.ctr s.live))⟩))
                = (⟨s.ctr + 4, s.live⟩ : Migrate.AllocState) := by
              rw [dict_release_eq]
              simp [Migrate.dictOwned, Migrate.entriesOwned, Migrate.erase_list,
                Migrate.zfree, Migrate.zsl_free, Migrate.zsl_free_eles,
                Finset.erase_insert hnot2, Finset.erase_insert hnot1,
                Finset.erase_insert hctr_not]
            rw [hred, hrel]
            exact ⟨Or.inr rfl, fun _ => ⟨rfl, rfl⟩⟩
          | true =>
            have hinv : Migrate.OwnedInv
                (Migrate.zsetOwned ⟨s.ctr, ⟨s.ctr + 1, []⟩, s.ctr + 2, some (s.ctr + 3)⟩)
                s.ctr s.live
                ⟨s.ctr + 4, insert (s.ctr + 3) (insert (s.ctr + 2)
                  (insert (s.ctr + 1) (insert s.ctr s.live)))⟩ := by
              refine ⟨?_, ?_, ?_, hf, show s.ctr ≤ s.ctr + 4 by omega⟩
              · ext x
                simp [Migrate.zsetOwned, Migrate.zslOwned, Migrate.dictOwned,
                  Migrate.entriesOwned]
              · simp [Migrate.zsetOwned, Migrate.zslOwned, Migrate.dictOwned,
                  Migrate.entriesOwned]
              · intro x hx
                simp [Migrate.zsetOwned, Migrate.zslOwned, Migrate.dictOwned,
                  Migrate.entriesOwned] at hx
                show s.ctr ≤ x ∧ x < s.ctr + 4
                rcases hx with h | h | h | h <;> omega
            have hspec := migrate_zset_elements_spec ok old.zsl.eles
              ⟨s.ctr, ⟨s.ctr + 1, []⟩, s.ctr + 2, some (s.ctr + 3)⟩
              ⟨s.ctr + 4, insert (s.ctr + 3) (insert (s.ctr + 2)
                (insert (s.ctr + 1) (insert s.ctr s.live)))⟩ s.ctr s.live hinv
            rcases hloop : Migrate.migrate_zset_elements ok old.zsl.eles
                ⟨s.ctr, ⟨s.ctr + 1, []⟩, s.ctr + 2, some (s.ctr + 3)⟩
                ⟨s.ctr + 4, insert (s.ctr + 3) (insert (s.ctr + 2)
                  (insert (s.ctr + 1) (insert s.ctr s.live)))⟩ with ⟨r5, s5⟩
            rw [hloop] at hspec
            cases r5 with
            | none =>
              have hred : Migrate.migrate_zset_type ok (.skiplist old) s
                  = (Migrate.NUMA_KEY_MIGRATE_ENOMEM, .skiplist old, s5) := by
                simp [Migrate.migrate_zset_type, Migrate.zalloc, h1, h2, h3, h4, hloop]
              rw [hred]
              exact ⟨Or.inr rfl, fun _ => ⟨rfl, hspec.1 rfl⟩⟩
            | some nz =>
              have hred : Migrate.migrate_zset_type ok (.skiplist old) s
                  = (Migrate.NUMA_KEY_MIGRATE_OK, .skiplist nz,
                      Migrate.zfree old.zsRoot (Migrate.zsl_free old.zsl
                        (Migrate.dict_release false false
                          ⟨old.dictRoot, old.dictTable, []⟩ s5))) := by
                simp [Migrate.migrate_zset_type, Migrate.zalloc, h1, h2, h3, h4, hloop]
              rw [hred]
              refine ⟨Or.inl rfl, fun h => ?_⟩
              exact absurd (show Migrate.NUMA_KEY_MIGRATE_OK
                = Migrate.NUMA_KEY_MIGRATE_ENOMEM from h) (by decide)

/-- C1: for every per-kind migration (string, hash, list, set, sorted
set — all reached through `migrate_by_type`), when the migration fails
with `NUMA_KEY_MIGRATE_ENOMEM` because an allocation performed while
building the new structure failed, the value's backing structure is
returned unchanged (the source structure is untouched and still the one
the host object references, no field of the value changed) and the
allocator's live set is exactly what it was before the call (every
partially-built allocation has been released); moreover on every
supported encoding an allocation failure is the only failure mode — the
result is `NUMA_KEY_MIGRATE_OK` or `NUMA_KEY_MIGRATE_ENOMEM`. -/
theorem C1_migration_oom_unwinds_fully :
    ∀ (ok : Nat → Bool) (v : Migrate.RVal) (s : Migrate.AllocState),
      Migrate.Fresh s →
      (Migrate.supported_encoding v = true →
        (Migrate.migrate_by_type ok v s).1 = Migrate.NUMA_KEY_MIGRATE_OK ∨
          (Migrate.migrate_by_type ok v s).1 = Migrate.NUMA_KEY_MIGRATE_ENOMEM) ∧
      ((Migrate.migrate_by_type ok v s).1 = Migrate.NUMA_KEY_MIGRATE_ENOMEM →
        (Migrate.migrate_by_type ok v s).2.1 = v ∧
          (Migrate.migrate_by_type ok v s).2.2.live = s.live) := by
  intro ok v s hf
  cases v with
  | stringVal e =>
    obtain ⟨hcomp, hun⟩ := migrate_string_type_oom ok e s
    refine ⟨fun _ => hcomp, fun hm => ?_⟩
    obtain ⟨he, hl⟩ := hun hm
    exact ⟨congrArg Migrate.RVal.stringVal he, hl⟩
  | hashVal e =>
    obtain ⟨hcomp, hun⟩ := migrate_hash_type_oom ok e s hf
    refine ⟨fun hs => hcomp ?_, fun hm => ?_⟩
    · intro hcontra
      subst hcontra
      simp [Migrate.supported_encoding] at hs
    · obtain ⟨he, hl⟩ := hun hm
      exact ⟨congrArg Migrate.RVal.hashVal he, hl⟩
  | listVal e =>
    obtain ⟨hcomp, hun⟩ := migrate_list_type_oom ok e s hf
    refine ⟨fun hs => hcomp ?_, fun hm => ?_⟩
    · intro hcontra
      subst hcontra
      simp [Migrate.supported_encoding] at hs
    · obtain ⟨he, hl⟩ := hun hm
      exact ⟨congrArg Migrate.RVal.listVal he, hl⟩
  | setVal e =>
    obtain ⟨hcomp, hun⟩ := migrate_set_type_oom ok e s hf
    refine ⟨fun hs => hcomp ?_, fun hm => ?_⟩
    · intro hcontra
      subst hcontra
      simp [Migrate.supported_encoding] at hs
    · obtain ⟨he, hl⟩ := hun hm
      exact ⟨congrArg Migrate.RVal.setVal he, hl⟩
  | zsetVal e =>
    obtain ⟨hcomp, hun⟩ := migrate_zset_type_oom ok e s hf
    refine ⟨fun _ => hcomp, fun hm => ?_⟩
    obtain ⟨he, hl⟩ := hun hm
    exact ⟨congrArg Migrate.RVal.zsetVal he, hl⟩
  | unknownType =>
    refine ⟨fun hs => ?_, fun hm => ?_⟩
    · simp [Migrate.supported_encoding] at hs
    · exact absurd (show Migrate.NUMA_KEY_MIGRATE_ETYPE
        = Migrate.NUMA_KEY_MIGRATE_ENOMEM from hm) (by decide)

/-- C1 witness: a hashtable-encoded hash with one field, migrated under
an allocator that grants the dict root, the bucket table and the first
field copy and then fails on the value copy — the result is
out-of-memory, the returned value is the untouched source hash, and the
live set is back to the (empty) pre-call live set. -/
theorem C1_migration_oom_unwinds_fully_witness :
    Migrate.Fresh ⟨0, ∅⟩ ∧
      Migrate.supported_encoding
        (Migrate.RVal.hashVal (Migrate.HashEnc.hashtable ⟨100, some 101, [(1, some 2)]⟩))
        = true ∧
      (Migrate.migrate_by_type (fun n => decide (n < 3))
          (Migrate.RVal.hashVal (Migrate.HashEnc.hashtable ⟨100, some 101, [(1, some 2)]⟩))
          ⟨0, ∅⟩).1 = Migrate.NUMA_KEY_MIGRATE_ENOMEM ∧
      ((Migrate.migrate_by_type (fun n => decide (n < 3))
          (Migrate.RVal.hashVal (Migrate.HashEnc.hashtable ⟨100, some 101, [(1, some 2)]⟩))
          ⟨0, ∅⟩).2.1
          = Migrate.RVal.hashVal (Migrate.HashEnc.hashtable ⟨100, some 101, [(1, some 2)]⟩) ∧
        (Migrate.migrate_by_type (fun n => decide (n < 3))
          (Migrate.RVal.hashVal (Migrate.HashEnc.hashtable ⟨100, some 101, [(1, some 2)]⟩))
          ⟨0, ∅⟩).2.2.live = (⟨0, ∅⟩ : Migrate.AllocState).live) :=
  ⟨fun x hx => absurd hx (Finset.not_mem_empty x), by decide, by decide,
    (C1_migration_oom_unwinds_fully (fun n => decide (n < 3))
        (Migrate.RVal.hashVal (Migrate.HashEnc.hashtable ⟨100, some 101, [(1, some 2)]⟩))
        ⟨0, ∅⟩ (fun x hx => absurd hx (Finset.not_mem_empty x))).2 (by decide)⟩

end RedisNuma
